import Mathlib

/-!
Verification of the Content-Type field state machine of the mail-parser
repository (`src/parsers/fields/content_type.rs`).

The parser is embedded shallowly: input bytes are `List Nat`, Rust `Cow<str>`
values are represented as their UTF-8 byte sequences (`String::from_utf8_lossy`
is modelled byte-exactly by `utf8_lossy`, which replaces each maximal invalid
subpart by the U+FFFD replacement bytes `239 191 189`),
and the `while let Some(ch) = self.next()` loop is a fuel-based recursion
whose fuel is always sufficient (proved below).  A Rust panic (the
`state_stack.pop().unwrap()` in the `)` handler) is modelled as the `none`
result of the loop; all regular paths return `some _`.
-/

/-- States of the state machine (source enum `ContentState`; the Rust
constructor `Type` is spelled `Type_` because `Type` is a Lean keyword). -/
inductive ContentState where
  | Type_
  | SubType
  | AttributeName
  | AttributeValue
  | AttributeQuotedValue
  | Comment
deriving DecidableEq, Repr

/-- One deferred RFC 2231 continuation segment: source
`type Continuation<'x> = (Cow<'x, str>, u32, Cow<'x, str>)`. -/
abbrev Continuation : Type := List Nat × Nat × List Nat

/-- The attributes part of the output (source `ContentType` struct). -/
structure ContentType where
  c_type : List Nat
  c_subtype : Option (List Nat)
  attributes : Option (List (List Nat × List Nat))
deriving DecidableEq, Repr

/-- The part of the source `HeaderValue` enum this component produces. -/
inductive HeaderValue where
  | ContentType (ct : ContentType)
  | Empty
deriving DecidableEq, Repr

/-- ASCII uppercase test on a byte. -/
def isUpperByte (b : Nat) : Bool := 65 ≤ b && b ≤ 90

/-- `u8::to_ascii_lowercase` on one byte. -/
def toLowerByte (b : Nat) : Nat := if isUpperByte b then b + 32 else b

/-- `str::make_ascii_lowercase` on a byte string. -/
def lowerBytes (l : List Nat) : List Nat := l.map toLowerByte

/-- The Rust slice `data[i..j]` as a byte list. -/
def sliceBytes (data : List Nat) (i j : Nat) : List Nat := (data.drop i).take (j - i)

/-- Byte sequence of an ASCII string literal (used to write concrete inputs). -/
def strBytes (s : String) : List Nat := s.data.map Char.toNat

/-- UTF-8 continuation byte test (`0x80..=0xBF`). -/
def utf8_cont (b : Nat) : Bool := 128 ≤ b && b ≤ 191

/-- Admissible range of the first continuation byte for a given lead byte
(the lead bytes `0xE0`, `0xED`, `0xF0` and `0xF4` restrict it to exclude
overlong encodings, surrogates and values beyond U+10FFFF). -/
def utf8_cont1_ok (lead c : Nat) : Bool :=
  if lead = 224 then 160 ≤ c && c ≤ 191
  else if lead = 237 then 128 ≤ c && c ≤ 159
  else if lead = 240 then 144 ≤ c && c ≤ 191
  else if lead = 244 then 128 ≤ c && c ≤ 143
  else 128 ≤ c && c ≤ 191

/-- Worker for `utf8_lossy`; the fuel starts at the list length and each
step consumes at least one byte, so the `0` arm is never reached.  Valid
sequences are copied; each maximal invalid subpart (a disallowed byte, or a
lead byte with its valid continuations cut short) is replaced by the U+FFFD
replacement character, UTF-8 bytes `239 191 189`, resuming at the first
byte not consumed. -/
def utf8_lossy_go : Nat → List Nat → List Nat
  | 0, _ => []
  | _, [] => []
  | fuel + 1, b :: r =>
    if b < 128 then b :: utf8_lossy_go fuel r
    else if 194 ≤ b ∧ b ≤ 223 then
      match r with
      | c :: r2 =>
        if utf8_cont1_ok b c then b :: c :: utf8_lossy_go fuel r2
        else 239 :: 191 :: 189 :: utf8_lossy_go fuel r
      | [] => [239, 191, 189]
    else if 224 ≤ b ∧ b ≤ 239 then
      match r with
      | c :: r2 =>
        if utf8_cont1_ok b c then
          match r2 with
          | d :: r3 =>
            if utf8_cont d then b :: c :: d :: utf8_lossy_go fuel r3
            else 239 :: 191 :: 189 :: utf8_lossy_go fuel r2
          | [] => [239, 191, 189]
        else 239 :: 191 :: 189 :: utf8_lossy_go fuel r
      | [] => [239, 191, 189]
    else if 240 ≤ b ∧ b ≤ 244 then
      match r with
      | c :: r2 =>
        if utf8_cont1_ok b c then
          match r2 with
          | d :: r3 =>
            if utf8_cont d then
              match r3 with
              | e :: r4 =>
                if utf8_cont e then b :: c :: d :: e :: utf8_lossy_go fuel r4
                else 239 :: 191 :: 189 :: utf8_lossy_go fuel r3
              | [] => [239, 191, 189]
            else 239 :: 191 :: 189 :: utf8_lossy_go fuel r2
          | [] => [239, 191, 189]
        else 239 :: 191 :: 189 :: utf8_lossy_go fuel r
      | [] => [239, 191, 189]
    else 239 :: 191 :: 189 :: utf8_lossy_go fuel r

/-- Rust `String::from_utf8_lossy` at the byte level (also
`String::from_utf8(..).unwrap_or_else(lossy)`, which yields the same bytes):
maximal invalid UTF-8 subparts are replaced by the U+FFFD replacement
bytes; valid input — in particular all-ASCII input — passes through
unchanged. -/
def utf8_lossy (l : List Nat) : List Nat := utf8_lossy_go l.length l

/-- Value of an ASCII hex digit, if the byte is one. -/
def hexDigit (b : Nat) : Option Nat :=
  if 48 ≤ b ∧ b ≤ 57 then some (b - 48)
  else if 65 ≤ b ∧ b ≤ 70 then some (b - 55)
  else if 97 ≤ b ∧ b ≤ 102 then some (b - 87)
  else none

/-- Modelled from the spec: the percent-hex decoding primitive
(`decoders::hex::decode_hex`, not under `src/`): each `%XX` escape with two
valid hex digits becomes the byte `XX`; malformed percent sequences pass
through as literal characters rather than failing (spec section 4.3). -/
def hexBytes : List Nat → List Nat
  | 37 :: a :: b :: rest =>
    match hexDigit a, hexDigit b with
    | some hi, some lo => (16 * hi + lo) :: hexBytes rest
    | _, _ => 37 :: hexBytes (a :: b :: rest)
  | b :: rest => b :: hexBytes rest
  | [] => []

/-- Modelled from the spec: `decode_hex` returns a success flag and the
decoded bytes; with the lenient pass-through of section 4.3 it never fails. -/
def decode_hex (l : List Nat) : Bool × List Nat := (true, hexBytes l)

/-- Modelled from the spec: the charset-decoder registry collaborator
(`decoders::charsets::map::charset_decoder`, not under `src/`).  Every
charset name here resolves to the permissive fallback (which at the byte
level is the identity), as the spec allows for unknown names: unknown or
unsupported charsets "fall back to a permissive best-effort decoder". -/
def charset_decoder (_name : List Nat) : Option (List Nat → List Nat) := none

/-- Modelled from the spec: the RFC 2047 encoded-word decoder collaborator.
Given the data and the cursor position just after the candidate `=`, it
either decodes (returning the decoded text and the number of bytes it
consumed) or reports no-match without consuming input. -/
def Rfc2047Decoder : Type := List Nat → Nat → Option (List Nat × Nat)

/-- A decoder that never matches (used to run the parser on inputs that
contain no encoded words). -/
def decode_rfc2047_fail : Rfc2047Decoder := fun _ _ => none

/-- The transient parse state (source struct `ContentTypeParser`).  The
stack top is the list head. -/
structure ContentTypeParser where
  state : ContentState
  state_stack : List ContentState
  c_type : Option (List Nat)
  c_subtype : Option (List Nat)
  attr_name : Option (List Nat)
  attr_charset : Option (List Nat)
  attr_position : Nat
  values : List (List Nat)
  attributes : List (List Nat × List Nat)
  continuations : Option (List Continuation)
  token_start : Nat
  token_end : Nat
  is_continuation : Bool
  is_encoded_attribute : Bool
  is_escaped : Bool
  remove_crlf : Bool
  is_lower_case : Bool
  is_token_start : Bool
deriving DecidableEq, Repr

/-- Source `ContentTypeParser::reset_parser` (renamed: Lean naming rules). -/
def resetTracking (p : ContentTypeParser) : ContentTypeParser :=
  {p with token_start := 0, is_token_start := true}

/-- Source `ContentTypeParser::add_attribute`: finalize the pending token as
type / subtype / attribute name (lowercased if an uppercase byte was seen),
returning whether a token was present.  The source `unreachable!()` arm
cannot fire (every call site matches on the state first); it is embedded as
the identity. -/
def add_attribute (p : ContentTypeParser) (data : List Nat) : ContentTypeParser × Bool :=
  if p.token_start > 0 then
    let raw := utf8_lossy (sliceBytes data (p.token_start - 1) p.token_end)
    let attr := if p.is_lower_case then raw else lowerBytes raw
    let p := {p with is_lower_case := true}
    let p :=
      match p.state with
      | ContentState.AttributeName => {p with attr_name := some attr}
      | ContentState.Type_ => {p with c_type := some attr}
      | ContentState.SubType => {p with c_subtype := some attr}
      | _ => p
    (resetTracking p, true)
  else (p, false)

/-- Source `ContentTypeParser::add_attribute_parameter`: the `'` handler of
an RFC 2231 encoded segment.  The first occurrence captures the charset
name; the second stores the language tag as a synthetic
`<attribute>-language` attribute unless one is already present, in which
case the text is kept as a literal value fragment. -/
def add_attribute_parameter (p : ContentTypeParser) (data : List Nat) : ContentTypeParser :=
  if p.token_start > 0 then
    let attr_part := utf8_lossy (sliceBytes data (p.token_start - 1) p.token_end)
    let p :=
      if p.attr_charset = none then {p with attr_charset := some attr_part}
      else
        let attr_name := (p.attr_name.getD (strBytes "unknown")) ++ strBytes "-language"
        if ¬ p.attributes.any (fun pr => decide (pr.1 = attr_name)) then
          {p with attributes := p.attributes ++ [(attr_name, attr_part)]}
        else
          {p with values := p.values ++ [[39], attr_part]}
    resetTracking p
  else p

/-- Source `ContentTypeParser::add_partial_value`: flush the pending span as
a value fragment (up to the current stream offset in a quoted value when
`to_cur_pos`), appending a single space after unquoted fragments. -/
def add_partial_value (p : ContentTypeParser) (data : List Nat) (offset : Nat)
    (to_cur_pos : Bool) : ContentTypeParser :=
  if p.token_start > 0 then
    let in_quote := p.state = ContentState.AttributeQuotedValue
    let endPos := if in_quote ∧ to_cur_pos = true then offset - 1 else p.token_end
    let p := {p with values :=
      p.values ++ [utf8_lossy (sliceBytes data (p.token_start - 1) endPos)]}
    let p := if in_quote then p else {p with values := p.values ++ [[32]]}
    resetTracking p
  else p

/-- The finalized span text of `add_value`: the pending token span, with CR
and LF bytes filtered out when the `remove_crlf` flag is set, then passed
through the UTF-8 conversion (`String::from_utf8_lossy`, resp.
`String::from_utf8` with the lossy fallback on the filtered bytes, which
yields the same byte sequence); `none` when no span is pending. -/
def value_text (p : ContentTypeParser) (data : List Nat) : Option (List Nat) :=
  if p.token_start > 0 then
    let raw := sliceBytes data (p.token_start - 1) p.token_end
    some (utf8_lossy (if p.remove_crlf = true then
        raw.filter (fun ch => decide (¬ (ch = 13 ∨ ch = 10)))
      else raw))
  else none

/-- The value of a plain (non-continuation) attribute in `add_value`: the
accumulated fragments followed by the final span, concatenated. -/
def plain_concat (values : List (List Nat)) (value : Option (List Nat)) : List Nat :=
  match value with
  | some v => if values ≠ [] then (values ++ [v]).flatten else v
  | none => values.flatten

/-- The merged text of a continuation segment in `add_value` (source:
`Cow::from(self.values.concat()) + value`). -/
def cont_concat (values : List (List Nat)) (value : Option (List Nat)) : List Nat :=
  match value with
  | some v => if values ≠ [] then values.flatten ++ v else v
  | none => values.flatten

/-- The `is_encoded_attribute` decode step of `add_value`: percent-hex
decode, then charset decode through the collaborator (falling back to
`String::from_utf8` with the lossy fallback, i.e. `utf8_lossy`, on the
decoded bytes). -/
def decode_cont_value (p : ContentTypeParser) (cvalue : List Nat) : List Nat :=
  if p.is_encoded_attribute = true then
    let dec := decode_hex cvalue
    if dec.1 then
      match p.attr_charset.bind charset_decoder with
      | some decoder => decoder dec.2
      | none => utf8_lossy dec.2
    else cvalue
  else cvalue

/-- Source `ContentTypeParser::add_value`: finalize an attribute value.
Continuation segments are percent-hex / charset decoded when flagged and
either deferred (position > 0) or appended directly; plain attributes are
pushed onto the result list.  The source's in-place mutations are gathered
into one record update per outcome: `remove_crlf` is cleared exactly when a
span was pending, `values` is left empty, `attr_name` is taken, and the
continuation flags are cleared on the continuation path (where the source
clears `is_encoded_attribute` only inside its `if`, the flag is already
`false` on the other side, so clearing unconditionally is the same). -/
def add_value (p : ContentTypeParser) (data : List Nat) : ContentTypeParser :=
  match p.attr_name with
  | none => p
  | some name =>
    if p.token_start = 0 ∧ p.values = [] then p
    else
      let value := value_text p data
      let rc := if p.token_start > 0 then false else p.remove_crlf
      if p.is_continuation = false then
        resetTracking
          {p with remove_crlf := rc, attr_name := none, values := [],
                  attributes := p.attributes ++ [(name, plain_concat p.values value)]}
      else
        let cvalue := decode_cont_value p (cont_concat p.values value)
        if p.attr_position > 0 then
          resetTracking
            {p with remove_crlf := rc, attr_name := none, values := [],
                    is_continuation := false, is_encoded_attribute := false,
                    attr_charset := none, attr_position := 0,
                    continuations :=
                      some ((p.continuations.getD []) ++ [(name, p.attr_position, cvalue)])}
        else
          resetTracking
            {p with remove_crlf := rc, attr_name := none, values := [],
                    is_continuation := false, is_encoded_attribute := false,
                    attr_charset := none,
                    attributes := p.attributes ++ [(name, cvalue)]}

/-- One ASCII decimal digit test. -/
def isDigitByte (b : Nat) : Bool := 48 ≤ b && b ≤ 57

/-- Rust `str::parse::<u32>()` with `unwrap_or(0)`: an optional leading `+`,
then decimal digits; any other shape, the empty string, or overflow past
`u32::MAX` yields 0. -/
def parse_u32_or_zero (l : List Nat) : Nat :=
  let digits := match l with | 43 :: rest => rest | _ => l
  if digits ≠ [] ∧ digits.all isDigitByte then
    let v := digits.foldl (fun acc b => acc * 10 + (b - 48)) 0
    if v < 4294967296 then v else 0
  else 0

/-- Source `ContentTypeParser::add_attr_position`: parse the pending token
as the continuation position, returning whether a token was present.  The
source parses `from_utf8_lossy` of the span; the conversion is omitted here
because it cannot change the result: a span containing a byte outside
ASCII parses to 0 either way (the byte itself, or the replacement
character it becomes, is not a decimal digit), and ASCII spans pass
through the conversion unchanged. -/
def add_attr_position (p : ContentTypeParser) (data : List Nat) : ContentTypeParser × Bool :=
  if p.token_start > 0 then
    ({resetTracking p with
        attr_position := parse_u32_or_zero (sliceBytes data (p.token_start - 1) p.token_end)},
      true)
  else (p, false)

/-- Byte-lexicographic order on byte strings (Rust `str` / `Cow<str>` `Ord`). -/
def bytesLeB : List Nat → List Nat → Bool
  | [], _ => true
  | _ :: _, [] => false
  | a :: as, b :: bs => if a < b then true else if b < a then false else bytesLeB as bs

/-- The derived lexicographic order on `(Cow<str>, u32, Cow<str>)` triples
used by `continuations.sort()`. -/
def contLeB (a b : Continuation) : Bool :=
  if a.1 = b.1 then
    if a.2.1 = b.2.1 then bytesLeB a.2.2 b.2.2
    else decide (a.2.1 ≤ b.2.1)
  else bytesLeB a.1 b.1

/-- `contLeB` as a decidable relation for `List.insertionSort`. -/
def contLe (a b : Continuation) : Prop := contLeB a b = true

instance : DecidableRel contLe := fun _ _ => inferInstanceAs (Decidable (_ = true))

/-- `Vec::sort` on the continuation list.  Rust's (stable) sort and
insertion sort agree: the order is total and two elements comparing equal
both ways are identical triples (antisymmetry, proved below). -/
def sortContinuations (l : List Continuation) : List Continuation :=
  List.insertionSort contLe l

/-- Find-or-append step of `merge_continuations`: append a segment's text to
the first attribute with the same name, or insert a new attribute. -/
def updateOrAppend : List (List Nat × List Nat) → List Nat → List Nat →
    List (List Nat × List Nat)
  | [], key, value => [(key, value)]
  | (n, ov) :: rest, key, value =>
    if n = key then (n, ov ++ value) :: rest
    else (n, ov) :: updateOrAppend rest key value

/-- Source `ContentTypeParser::merge_continuations`: sort the deferred
`(name, position, value)` tuples and drain them into the attribute list.
The only call site guards on `continuations.is_some()` (the source
`unwrap` cannot fire); draining leaves an empty list behind. -/
def merge_continuations (p : ContentTypeParser) : ContentTypeParser :=
  let conts := sortContinuations (p.continuations.getD [])
  let attrs := conts.foldl (fun attrs c => updateOrAppend attrs c.1 c.2.2) p.attributes
  {p with attributes := attrs, continuations := some []}

/-- Modelled from the spec: the byte reader's one-byte fold lookahead
(`MessageStream::peek_next_is_space`, not under `src/`): whether the next
unread byte exists and is a space or tab. -/
def peek_next_is_space (data : List Nat) (pos : Nat) : Bool :=
  decide (pos < data.length) && (decide (data.getD pos 0 = 32) || decide (data.getD pos 0 = 9))

/-- Modelled from the spec: the byte reader's one-byte lookahead
(`MessageStream::peek_char`, not under `src/`). -/
def peek_char (data : List Nat) (pos : Nat) (b : Nat) : Bool :=
  decide (pos < data.length) && decide (data.getD pos 0 = b)

/-- The uppercase-tracking arm of the loop (`b'A'..=b'Z'`): clear
`is_lower_case` when an uppercase byte is seen in a token-producing state. -/
def upper_update (p : ContentTypeParser) (ch : Nat) : ContentTypeParser :=
  if 65 ≤ ch ∧ ch ≤ 90 then
    if p.is_lower_case = true ∧
        (p.state = ContentState.Type_ ∨ p.state = ContentState.SubType ∨
          p.state = ContentState.AttributeName) then
      {p with is_lower_case := false}
    else p
  else p

/-- The shared fall-through tail of the loop body: clear a pending escape,
clear `is_token_start`, and extend (or open) the pending token span up to
the current stream offset. -/
def accumulate_token (p : ContentTypeParser) (offset : Nat) : ContentTypeParser :=
  let p := if p.is_escaped then {p with is_escaped := false} else p
  let p := if p.is_token_start then {p with is_token_start := false} else p
  if p.token_start = 0 then {p with token_start := offset, token_end := offset}
  else {p with token_end := offset}

/-- The final `return` expression of `parse_content_type`: a populated
result when a type token was finalized, the explicit empty value
otherwise. -/
def finish_content_type (p : ContentTypeParser) : HeaderValue :=
  match p.c_type with
  | some content_type =>
    HeaderValue.ContentType
      { c_type := content_type,
        c_subtype := p.c_subtype,
        attributes := if p.attributes ≠ [] then some p.attributes else none }
  | none => HeaderValue.Empty

/-- Result of one iteration of the parser loop: either continue with a new
parser state and stream position, or terminate with the loop's result
(`done none` models the `state_stack.pop().unwrap()` panic). -/
inductive StepRes where
  | done (r : Option HeaderValue)
  | cont (p : ContentTypeParser) (pos : Nat)
deriving DecidableEq, Repr

/-- The tail of the `b'\n'` arm, after state-specific finalization: either
consume the fold marker and continue the same logical field in
`AttributeName` state, or merge any deferred continuations and return. -/
def nl_finish (p : ContentTypeParser) (next_is_space : Bool) (pos : Nat) : StepRes :=
  if next_is_space then
    StepRes.cont {p with state := ContentState.AttributeName, is_token_start := true} (pos + 2)
  else
    StepRes.done (some (finish_content_type
      (if p.continuations.isSome then merge_continuations p else p)))

/-- The space/tab arm of the loop: mark a token boundary; inside a quoted
value the whitespace is retained in the pending span. -/
def whitespace_step (p : ContentTypeParser) (pos : Nat) : StepRes :=
  if p.state = ContentState.AttributeQuotedValue then
    if p.token_start = 0 then
      StepRes.cont
        {p with is_token_start := true, token_start := pos + 1, token_end := pos + 1} (pos + 1)
    else
      StepRes.cont {p with is_token_start := true, token_end := pos + 1} (pos + 1)
  else
    StepRes.cont {p with is_token_start := true} (pos + 1)

/-- The `b'\n'` arm of the loop: finalize per state, then fold or finish. -/
def newline_step (data : List Nat) (p : ContentTypeParser) (pos : Nat) : StepRes :=
  match p.state with
  | ContentState.Type_ | ContentState.AttributeName | ContentState.SubType =>
    nl_finish (add_attribute p data).1 (peek_next_is_space data (pos + 1)) pos
  | ContentState.AttributeValue =>
    nl_finish (add_value p data) (peek_next_is_space data (pos + 1)) pos
  | ContentState.AttributeQuotedValue =>
    if peek_next_is_space data (pos + 1) = true then
      StepRes.cont {p with remove_crlf := true} (pos + 1)
    else
      nl_finish (add_value p data) (peek_next_is_space data (pos + 1)) pos
  | ContentState.Comment => nl_finish p (peek_next_is_space data (pos + 1)) pos

/-- The `b';'` arm of the loop. -/
def semicolon_step (data : List Nat) (p : ContentTypeParser) (pos : Nat) : StepRes :=
  match p.state with
  | ContentState.Type_ | ContentState.SubType | ContentState.AttributeName =>
    StepRes.cont {(add_attribute p data).1 with state := ContentState.AttributeName} (pos + 1)
  | ContentState.AttributeValue =>
    if p.is_escaped = false then
      StepRes.cont {(add_value p data) with state := ContentState.AttributeName} (pos + 1)
    else StepRes.cont {p with is_escaped := false} (pos + 1)
  | _ => StepRes.cont (accumulate_token p (pos + 1)) (pos + 1)

/-- The `b'*'` arm of the loop (in `AttributeName` state): continuation and
encoding markers; a third `*` is malformed and only resets the pending
token. -/
def star_step (data : List Nat) (p : ContentTypeParser) (pos : Nat) : StepRes :=
  if p.is_continuation = false then
    StepRes.cont
      {(add_attribute p data).1 with is_continuation := (add_attribute p data).2} (pos + 1)
  else if p.is_encoded_attribute = false then
    StepRes.cont {(add_attr_position p data).1 with is_encoded_attribute := true} (pos + 1)
  else
    StepRes.cont (resetTracking p) (pos + 1)

/-- The `b'='` arm of the loop: attribute-name finalization, or the
speculative RFC 2047 decode inside a value. -/
def equals_step (dec : Rfc2047Decoder) (data : List Nat) (p : ContentTypeParser)
    (pos : Nat) : StepRes :=
  match p.state with
  | ContentState.AttributeName =>
    if p.is_continuation = false then
      if (add_attribute p data).2 = false then StepRes.cont (add_attribute p data).1 (pos + 1)
      else
        StepRes.cont
          {(add_attribute p data).1 with state := ContentState.AttributeValue} (pos + 1)
    else if p.is_encoded_attribute = false then
      StepRes.cont
        {(add_attr_position p data).1 with
          is_encoded_attribute := !(add_attr_position p data).2,
          state := ContentState.AttributeValue} (pos + 1)
    else
      StepRes.cont {(resetTracking p) with state := ContentState.AttributeValue} (pos + 1)
  | ContentState.AttributeValue | ContentState.AttributeQuotedValue =>
    if p.is_token_start = true ∧ peek_char data (pos + 1) 63 = true then
      match dec data (pos + 1) with
      | some (token, k) =>
        StepRes.cont
          {(add_partial_value p data (pos + 1) false) with
            values := (add_partial_value p data (pos + 1) false).values ++ [token]}
          (pos + 1 + k)
      | none => StepRes.cont (accumulate_token p (pos + 1)) (pos + 1)
    else StepRes.cont (accumulate_token p (pos + 1)) (pos + 1)
  | _ => StepRes.cont (accumulate_token p (pos + 1)) (pos + 1)

/-- The `b'"'` arm of the loop. -/
def quote_step (data : List Nat) (p : ContentTypeParser) (pos : Nat) : StepRes :=
  match p.state with
  | ContentState.AttributeValue =>
    StepRes.cont
      {p with is_token_start := true, state := ContentState.AttributeQuotedValue} (pos + 1)
  | ContentState.AttributeQuotedValue =>
    if p.is_escaped = false then
      StepRes.cont {(add_value p data) with state := ContentState.AttributeName} (pos + 1)
    else
      StepRes.cont (accumulate_token {p with is_escaped := false} (pos + 1)) (pos + 1)
  | _ => StepRes.cont p (pos + 1)

/-- The `b'\\'` arm of the loop. -/
def backslash_step (data : List Nat) (p : ContentTypeParser) (pos : Nat) : StepRes :=
  match p.state with
  | ContentState.AttributeQuotedValue | ContentState.AttributeValue =>
    if p.is_escaped = false then
      StepRes.cont
        {(add_partial_value p data (pos + 1) true) with is_escaped := true} (pos + 1)
    else
      StepRes.cont (accumulate_token {p with is_escaped := false} (pos + 1)) (pos + 1)
  | ContentState.Comment =>
    StepRes.cont (accumulate_token {p with is_escaped := !p.is_escaped} (pos + 1)) (pos + 1)
  | _ => StepRes.cont p (pos + 1)

/-- The `b'('` arm of the loop: finalize the pending token, push the current
state and enter a comment. -/
def comment_open_step (data : List Nat) (p : ContentTypeParser) (pos : Nat) : StepRes :=
  if p.is_escaped = false then
    StepRes.cont
      (match p.state with
        | ContentState.Type_ | ContentState.AttributeName | ContentState.SubType =>
          {(add_attribute p data).1 with
            state_stack := (add_attribute p data).1.state :: (add_attribute p data).1.state_stack,
            state := ContentState.Comment}
        | ContentState.AttributeValue =>
          {(add_value p data) with
            state_stack := (add_value p data).state :: (add_value p data).state_stack,
            state := ContentState.Comment}
        | _ =>
          {p with state_stack := p.state :: p.state_stack, state := ContentState.Comment})
      (pos + 1)
  else StepRes.cont {p with is_escaped := false} (pos + 1)

/-- The `b')'` arm of the loop (in `Comment` state): pop the saved state;
an empty stack is the source `unwrap` panic. -/
def comment_close_step (p : ContentTypeParser) (pos : Nat) : StepRes :=
  if p.is_escaped = false then
    match p.state_stack with
    | top :: rest =>
      StepRes.cont (resetTracking {p with state := top, state_stack := rest}) (pos + 1)
    | [] => StepRes.done none
  else StepRes.cont {p with is_escaped := false} (pos + 1)

/-- One iteration of the `while let Some(ch) = self.next()` loop of
`MessageStream::parse_content_type`.  `pos` is the index of the next unread
byte; the Rust `self.offset()` after consuming `ch` is `pos + 1`.  The
arms appear in source order; where a source arm falls through to the shared
tail, `accumulate_token` is applied. -/
def contentTypeStep (dec : Rfc2047Decoder) (data : List Nat) (p : ContentTypeParser)
    (pos : Nat) : StepRes :=
  if pos < data.length then
    if data.getD pos 0 = 32 ∨ data.getD pos 0 = 9 then
      whitespace_step p pos
    else if 65 ≤ data.getD pos 0 ∧ data.getD pos 0 ≤ 90 then
      StepRes.cont (accumulate_token (upper_update p (data.getD pos 0)) (pos + 1)) (pos + 1)
    else if data.getD pos 0 = 10 then
      newline_step data p pos
    else if data.getD pos 0 = 47 ∧ p.state = ContentState.Type_ then
      StepRes.cont {(add_attribute p data).1 with state := ContentState.SubType} (pos + 1)
    else if data.getD pos 0 = 59 then
      semicolon_step data p pos
    else if data.getD pos 0 = 42 ∧ p.state = ContentState.AttributeName then
      star_step data p pos
    else if data.getD pos 0 = 61 then
      equals_step dec data p pos
    else if data.getD pos 0 = 34 then
      quote_step data p pos
    else if data.getD pos 0 = 92 then
      backslash_step data p pos
    else if data.getD pos 0 = 39 ∧ p.is_encoded_attribute = true ∧ p.is_escaped = false ∧
        (p.state = ContentState.AttributeValue ∨
          p.state = ContentState.AttributeQuotedValue) then
      StepRes.cont (add_attribute_parameter p data) (pos + 1)
    else if data.getD pos 0 = 40 ∧ p.state ≠ ContentState.AttributeQuotedValue then
      comment_open_step data p pos
    else if data.getD pos 0 = 41 ∧ p.state = ContentState.Comment then
      comment_close_step p pos
    else if data.getD pos 0 = 13 then
      StepRes.cont p (pos + 1)
    else
      StepRes.cont (accumulate_token p (pos + 1)) (pos + 1)
  else
    StepRes.done (some HeaderValue.Empty)

/-- The parser loop as fuel-based recursion; `none` on fuel exhaustion
(shown unreachable below: each step advances `pos`). -/
def contentTypeLoop (dec : Rfc2047Decoder) (data : List Nat) :
    Nat → ContentTypeParser → Nat → Option HeaderValue
  | 0, _, _ => none
  | fuel + 1, p, pos =>
    match contentTypeStep dec data p pos with
    | StepRes.done r => r
    | StepRes.cont p' pos' => contentTypeLoop dec data fuel p' pos'

/-- The initial parser state built at the start of `parse_content_type`. -/
def newContentTypeParser : ContentTypeParser :=
  { state := ContentState.Type_
    state_stack := []
    c_type := none
    c_subtype := none
    attr_name := none
    attr_charset := none
    attr_position := 0
    values := []
    attributes := []
    continuations := none
    token_start := 0
    token_end := 0
    is_continuation := false
    is_encoded_attribute := false
    is_escaped := false
    remove_crlf := false
    is_lower_case := true
    is_token_start := true }

/-- Source `MessageStream::parse_content_type`, parameterized by the RFC
2047 decoder collaborator.  `some hv` is a normal return; `none` models a
panic (proved impossible below). -/
def parse_content_type (dec : Rfc2047Decoder) (data : List Nat) : Option HeaderValue :=
  contentTypeLoop dec data (data.length + 1) newContentTypeParser 0

/-- Number of `Comment` entries in a state stack. -/
def countComment (st : List ContentState) : Nat :=
  st.countP (fun s => decide (s = ContentState.Comment))

/-- The safety invariant for the `)` handler: in `Comment` state the stack
holds strictly more entries than nested `Comment` entries (in particular it
is non-empty, so the source `pop().unwrap()` cannot panic). -/
def CommentStackInv (p : ContentTypeParser) : Prop :=
  p.state = ContentState.Comment → countComment p.state_stack < p.state_stack.length

/-- Byte class for the well-formedness statements: a byte that is not one
of the characters the state machine treats specially (whitespace, fold and
CR bytes, and the `"`, `'`, `(`, `)`, `*`, `/`, `;`, `=`, `\` handlers). -/
def PlainByte (b : Nat) : Prop :=
  b < 256 ∧ b ∉ ([9, 10, 13, 32, 34, 39, 40, 41, 42, 47, 59, 61, 92] : List Nat)

instance : DecidablePred PlainByte := fun _ => inferInstanceAs (Decidable (_ ∧ _))

/-- Net effect of consuming a run of plain bytes starting at `pos`. -/
def plain_run (p : ContentTypeParser) (pos : Nat) : List Nat → ContentTypeParser
  | [] => p
  | b :: r => plain_run (accumulate_token (upper_update p b) (pos + 1)) (pos + 1) r

/-- The `is_lower_case` flag after a run of plain bytes: it is cleared when
an uppercase byte is seen in one of the token-producing states. -/
def lc_after (st : ContentState) (lc : Bool) (r : List Nat) : Bool :=
  if st = ContentState.Type_ ∨ st = ContentState.SubType ∨
      st = ContentState.AttributeName then
    lc && !(r.any isUpperByte)
  else lc


/-! ### Helper lemmas: the parser helpers never touch `state` or `state_stack` -/

theorem resetTracking_state (p : ContentTypeParser) :
    (resetTracking p).state = p.state := rfl

theorem resetTracking_stack (p : ContentTypeParser) :
    (resetTracking p).state_stack = p.state_stack := rfl

theorem add_attribute_state (p : ContentTypeParser) (data : List Nat) :
    (add_attribute p data).1.state = p.state := by
  obtain ⟨st, stk, ct, cst, an, ac, ap, vs, ats, co, ts, te, ic, ie, ies, rc, lc, its⟩ := p
  unfold add_attribute resetTracking
  cases st <;> dsimp only <;> repeat' split
  all_goals rfl

theorem add_attribute_stack (p : ContentTypeParser) (data : List Nat) :
    (add_attribute p data).1.state_stack = p.state_stack := by
  obtain ⟨st, stk, ct, cst, an, ac, ap, vs, ats, co, ts, te, ic, ie, ies, rc, lc, its⟩ := p
  unfold add_attribute resetTracking
  cases st <;> dsimp only <;> repeat' split
  all_goals rfl

theorem add_attribute_parameter_state (p : ContentTypeParser) (data : List Nat) :
    (add_attribute_parameter p data).state = p.state := by
  unfold add_attribute_parameter resetTracking
  dsimp only
  repeat' split
  all_goals rfl

theorem add_attribute_parameter_stack (p : ContentTypeParser) (data : List Nat) :
    (add_attribute_parameter p data).state_stack = p.state_stack := by
  unfold add_attribute_parameter resetTracking
  dsimp only
  repeat' split
  all_goals rfl

theorem add_partial_value_state (p : ContentTypeParser) (data : List Nat) (offset : Nat)
    (b : Bool) : (add_partial_value p data offset b).state = p.state := by
  unfold add_partial_value resetTracking
  dsimp only
  repeat' split
  all_goals rfl

theorem add_partial_value_stack (p : ContentTypeParser) (data : List Nat) (offset : Nat)
    (b : Bool) : (add_partial_value p data offset b).state_stack = p.state_stack := by
  unfold add_partial_value resetTracking
  dsimp only
  repeat' split
  all_goals rfl

theorem add_value_state (p : ContentTypeParser) (data : List Nat) :
    (add_value p data).state = p.state := by
  unfold add_value resetTracking
  dsimp only
  repeat' split
  all_goals rfl

theorem add_value_stack (p : ContentTypeParser) (data : List Nat) :
    (add_value p data).state_stack = p.state_stack := by
  unfold add_value resetTracking
  dsimp only
  repeat' split
  all_goals rfl

theorem add_attr_position_state (p : ContentTypeParser) (data : List Nat) :
    (add_attr_position p data).1.state = p.state := by
  unfold add_attr_position resetTracking
  dsimp only
  repeat' split
  all_goals rfl

theorem add_attr_position_stack (p : ContentTypeParser) (data : List Nat) :
    (add_attr_position p data).1.state_stack = p.state_stack := by
  unfold add_attr_position resetTracking
  dsimp only
  repeat' split
  all_goals rfl

theorem accumulate_token_state (p : ContentTypeParser) (offset : Nat) :
    (accumulate_token p offset).state = p.state := by
  unfold accumulate_token
  try dsimp only
  repeat' split
  all_goals rfl

theorem accumulate_token_stack (p : ContentTypeParser) (offset : Nat) :
    (accumulate_token p offset).state_stack = p.state_stack := by
  unfold accumulate_token
  try dsimp only
  repeat' split
  all_goals rfl

theorem upper_update_state (p : ContentTypeParser) (ch : Nat) :
    (upper_update p ch).state = p.state := by
  unfold upper_update
  try dsimp only
  repeat' split
  all_goals rfl

theorem upper_update_stack (p : ContentTypeParser) (ch : Nat) :
    (upper_update p ch).state_stack = p.state_stack := by
  unfold upper_update
  try dsimp only
  repeat' split
  all_goals rfl

theorem bytesLeB_total (x y : List Nat) : bytesLeB x y = true ∨ bytesLeB y x = true := by
  induction x generalizing y with
  | nil => left; rfl
  | cons a as ih =>
    cases y with
    | nil => right; rfl
    | cons b bs =>
      rcases Nat.lt_trichotomy a b with h | h | h
      · left; simp [bytesLeB, h]
      · subst h
        rcases ih bs with h2 | h2
        · left; simp [bytesLeB, h2]
        · right; simp [bytesLeB, h2]
      · right; simp [bytesLeB, h]

theorem bytesLeB_antisymm (x y : List Nat) (h1 : bytesLeB x y = true)
    (h2 : bytesLeB y x = true) : x = y := by
  induction x generalizing y with
  | nil =>
    cases y with
    | nil => rfl
    | cons b bs => simp [bytesLeB] at h2
  | cons a as ih =>
    cases y with
    | nil => simp [bytesLeB] at h1
    | cons b bs =>
      rcases Nat.lt_trichotomy a b with h | h | h
      · simp [bytesLeB, h, Nat.lt_asymm h] at h2
      · subst h
        simp only [bytesLeB, Nat.lt_irrefl, if_false] at h1 h2
        rw [ih bs h1 h2]
      · simp [bytesLeB, h, Nat.lt_asymm h] at h1

theorem bytesLeB_trans (x y z : List Nat) (h1 : bytesLeB x y = true)
    (h2 : bytesLeB y z = true) : bytesLeB x z = true := by
  induction x generalizing y z with
  | nil => rfl
  | cons a as ih =>
    cases y with
    | nil => simp [bytesLeB] at h1
    | cons b bs =>
      cases z with
      | nil => simp [bytesLeB] at h2
      | cons c cs =>
        rcases Nat.lt_trichotomy a b with hab | hab | hab
        · rcases Nat.lt_trichotomy b c with hbc | hbc | hbc
          · simp [bytesLeB, Nat.lt_trans hab hbc]
          · subst hbc; simp [bytesLeB, hab]
          · simp [bytesLeB, hbc, Nat.lt_asymm hbc] at h2
        · subst hab
          rcases Nat.lt_trichotomy a c with hbc | hbc | hbc
          · simp [bytesLeB, hbc]
          · subst hbc
            simp only [bytesLeB, Nat.lt_irrefl, if_false] at h1 h2 ⊢
            exact ih bs cs h1 h2
          · simp [bytesLeB, hbc, Nat.lt_asymm hbc] at h2
        · simp [bytesLeB, hab, Nat.lt_asymm hab] at h1

theorem contLe_total (a b : Continuation) : contLe a b ∨ contLe b a := by
  obtain ⟨an, ak, av⟩ := a
  obtain ⟨bn, bk, bv⟩ := b
  unfold contLe contLeB
  dsimp only
  by_cases hn : an = bn
  · rw [if_pos hn, if_pos hn.symm]
    by_cases hk : ak = bk
    · rw [if_pos hk, if_pos hk.symm]
      exact bytesLeB_total av bv
    · rw [if_neg hk, if_neg (fun h : bk = ak => hk h.symm)]
      rcases Nat.le_total ak bk with h | h
      · exact Or.inl (decide_eq_true h)
      · exact Or.inr (decide_eq_true h)
  · rw [if_neg hn, if_neg (fun h : bn = an => hn h.symm)]
    exact bytesLeB_total an bn

theorem contLe_antisymm (a b : Continuation) (h1 : contLe a b) (h2 : contLe b a) : a = b := by
  obtain ⟨an, ak, av⟩ := a
  obtain ⟨bn, bk, bv⟩ := b
  unfold contLe contLeB at h1 h2
  dsimp only at h1 h2
  by_cases hn : an = bn
  · rw [if_pos hn] at h1
    rw [if_pos hn.symm] at h2
    by_cases hk : ak = bk
    · rw [if_pos hk] at h1
      rw [if_pos hk.symm] at h2
      have hv := bytesLeB_antisymm _ _ h1 h2
      rw [hn, hk, hv]
    · rw [if_neg hk] at h1
      rw [if_neg (fun h : bk = ak => hk h.symm)] at h2
      have l1 := of_decide_eq_true h1
      have l2 := of_decide_eq_true h2
      exact absurd (Nat.le_antisymm l1 l2) hk
  · rw [if_neg hn] at h1
    rw [if_neg (fun h : bn = an => hn h.symm)] at h2
    exact absurd (bytesLeB_antisymm _ _ h1 h2) hn

theorem contLe_trans (a b c : Continuation) (h1 : contLe a b) (h2 : contLe b c) :
    contLe a c := by
  obtain ⟨an, ak, av⟩ := a
  obtain ⟨bn, bk, bv⟩ := b
  obtain ⟨cn, ck, cv⟩ := c
  unfold contLe contLeB at h1 h2 ⊢
  dsimp only at h1 h2 ⊢
  by_cases hab : an = bn <;> by_cases hbc : bn = cn
  · rw [if_pos hab] at h1
    rw [if_pos hbc] at h2
    rw [if_pos (hab.trans hbc)]
    by_cases hk1 : ak = bk <;> by_cases hk2 : bk = ck
    · rw [if_pos hk1] at h1
      rw [if_pos hk2] at h2
      rw [if_pos (hk1.trans hk2)]
      exact bytesLeB_trans _ _ _ h1 h2
    · rw [if_pos hk1] at h1
      rw [if_neg hk2] at h2
      rw [if_neg (fun h : ak = ck => hk2 (hk1 ▸ h))]
      have l2 := of_decide_eq_true h2
      exact decide_eq_true (by omega)
    · rw [if_neg hk1] at h1
      rw [if_pos hk2] at h2
      rw [if_neg (fun h : ak = ck => hk1 (hk2 ▸ h.symm).symm)]
      have l1 := of_decide_eq_true h1
      exact decide_eq_true (by omega)
    · rw [if_neg hk1] at h1
      rw [if_neg hk2] at h2
      have l1 := of_decide_eq_true h1
      have l2 := of_decide_eq_true h2
      have hac : ¬ ak = ck := by omega
      rw [if_neg hac]
      exact decide_eq_true (by omega)
  · rw [if_pos hab] at h1
    rw [if_neg hbc] at h2
    rw [if_neg (fun h : an = cn => hbc (hab ▸ h))]
    rw [hab]
    exact h2
  · rw [if_neg hab] at h1
    rw [if_pos hbc] at h2
    rw [if_neg (fun h : an = cn => hab (hbc ▸ h.symm).symm)]
    rw [← hbc]
    exact h1
  · rw [if_neg hab] at h1
    rw [if_neg hbc] at h2
    by_cases hac : an = cn
    · subst hac
      exact absurd (bytesLeB_antisymm _ _ h1 h2) hab
    · rw [if_neg hac]
      exact bytesLeB_trans _ _ _ h1 h2

/-- `Vec::sort` gives the same sorted list for any two permutations of the
same continuation multiset. -/
theorem sortContinuations_eq_of_perm (l1 l2 : List Continuation) (h : l1.Perm l2) :
    sortContinuations l1 = sortContinuations l2 := by
  unfold sortContinuations
  exact @List.eq_of_perm_of_sorted _ contLe ⟨contLe_antisymm⟩ _ _
    ((List.perm_insertionSort contLe l1).trans (h.trans (List.perm_insertionSort contLe l2).symm))
    (@List.sorted_insertionSort _ contLe _ ⟨contLe_total⟩ ⟨fun _ _ _ => contLe_trans _ _ _⟩ l1)
    (@List.sorted_insertionSort _ contLe _ ⟨contLe_total⟩ ⟨fun _ _ _ => contLe_trans _ _ _⟩ l2)

/-! ### Helper lemmas: the comment-stack invariant is preserved by every step -/

theorem countComment_le (st : List ContentState) : countComment st ≤ st.length :=
  List.countP_le_length _

theorem countComment_cons (s : ContentState) (st : List ContentState) :
    countComment (s :: st) =
      countComment st + if s = ContentState.Comment then 1 else 0 := by
  unfold countComment
  rw [List.countP_cons]
  by_cases h : s = ContentState.Comment
  · rw [if_pos h, if_pos (decide_eq_true h)]
  · rw [if_neg h, if_neg (by simpa using h)]

theorem commentStackInv_of_eq (q p : ContentTypeParser) (hst : q.state = p.state)
    (hstk : q.state_stack = p.state_stack) (h : CommentStackInv p) : CommentStackInv q := by
  intro hc
  rw [hstk]
  exact h (hst ▸ hc)

theorem commentStackInv_of_ne (q : ContentTypeParser)
    (h : q.state ≠ ContentState.Comment) : CommentStackInv q :=
  fun hc => absurd hc h

theorem commentStackInv_push (p : ContentTypeParser) (s : ContentState)
    (stk : List ContentState) (q : ContentTypeParser)
    (hstk : q.state_stack = s :: stk) (hs : s = p.state) (hstk0 : stk = p.state_stack)
    (h : CommentStackInv p) : CommentStackInv q := by
  intro _
  rw [hstk, hs, hstk0, countComment_cons, List.length_cons]
  by_cases hc : p.state = ContentState.Comment
  · have := h hc
    rw [if_pos hc]
    omega
  · have := countComment_le p.state_stack
    rw [if_neg hc]
    omega

theorem commentStackInv_pop (p : ContentTypeParser) (top : ContentState)
    (rest : List ContentState) (hstk : p.state_stack = top :: rest)
    (hc : p.state = ContentState.Comment) (h : CommentStackInv p) :
    CommentStackInv (resetTracking {p with state := top, state_stack := rest}) := by
  intro htop
  have hh := h hc
  rw [hstk, countComment_cons, List.length_cons] at hh
  show countComment rest < rest.length
  have htop' : top = ContentState.Comment := htop
  rw [if_pos htop'] at hh
  omega

/-! ### Per-arm classification lemmas -/

theorem nl_finish_cases (q : ContentTypeParser) (ns : Bool) (pos : Nat) :
    (ns = true ∧ nl_finish q ns pos =
      StepRes.cont {q with state := ContentState.AttributeName, is_token_start := true}
        (pos + 2)) ∨
    (ns = false ∧ nl_finish q ns pos =
      StepRes.done (some (finish_content_type
        (if q.continuations.isSome then merge_continuations q else q)))) := by
  unfold nl_finish
  cases ns with
  | true => exact Or.inl ⟨rfl, rfl⟩
  | false => exact Or.inr ⟨rfl, rfl⟩

theorem whitespace_step_cont (p : ContentTypeParser) (pos : Nat)
    (p' : ContentTypeParser) (pos' : Nat) (hInv : CommentStackInv p)
    (h : whitespace_step p pos = StepRes.cont p' pos') :
    pos < pos' ∧ CommentStackInv p' := by
  unfold whitespace_step at h
  repeat' split at h
  all_goals
    (injection h with h1 h2
     subst h1
     subst h2
     exact ⟨by omega, commentStackInv_of_eq _ p rfl rfl hInv⟩)

theorem newline_step_cases (data : List Nat) (p : ContentTypeParser) (pos : Nat)
    (hInv : CommentStackInv p) :
    (∃ p' pos', newline_step data p pos = StepRes.cont p' pos' ∧ pos < pos' ∧
      CommentStackInv p') ∨
    (peek_next_is_space data (pos + 1) = false ∧
      ∃ hv, newline_step data p pos = StepRes.done (some hv)) := by
  unfold newline_step
  cases hst : p.state
  case Type_ =>
    rcases nl_finish_cases (add_attribute p data).1 (peek_next_is_space data (pos + 1)) pos
      with ⟨hT, hE⟩ | ⟨hF, hE⟩
    · exact Or.inl ⟨_, _, hE, by omega, commentStackInv_of_ne _ (fun hh => nomatch hh)⟩
    · exact Or.inr ⟨hF, _, hE⟩
  case AttributeName =>
    rcases nl_finish_cases (add_attribute p data).1 (peek_next_is_space data (pos + 1)) pos
      with ⟨hT, hE⟩ | ⟨hF, hE⟩
    · exact Or.inl ⟨_, _, hE, by omega, commentStackInv_of_ne _ (fun hh => nomatch hh)⟩
    · exact Or.inr ⟨hF, _, hE⟩
  case SubType =>
    rcases nl_finish_cases (add_attribute p data).1 (peek_next_is_space data (pos + 1)) pos
      with ⟨hT, hE⟩ | ⟨hF, hE⟩
    · exact Or.inl ⟨_, _, hE, by omega, commentStackInv_of_ne _ (fun hh => nomatch hh)⟩
    · exact Or.inr ⟨hF, _, hE⟩
  case AttributeValue =>
    rcases nl_finish_cases (add_value p data) (peek_next_is_space data (pos + 1)) pos
      with ⟨hT, hE⟩ | ⟨hF, hE⟩
    · exact Or.inl ⟨_, _, hE, by omega, commentStackInv_of_ne _ (fun hh => nomatch hh)⟩
    · exact Or.inr ⟨hF, _, hE⟩
  case AttributeQuotedValue =>
    by_cases hns : peek_next_is_space data (pos + 1) = true
    · rw [if_pos hns]
      exact Or.inl ⟨_, _, rfl, by omega,
        commentStackInv_of_eq _ p hst.symm rfl hInv⟩
    · rw [if_neg hns]
      rcases nl_finish_cases (add_value p data) (peek_next_is_space data (pos + 1)) pos
        with ⟨hT, hE⟩ | ⟨hF, hE⟩
      · exact absurd hT hns
      · exact Or.inr ⟨hF, _, hE⟩
  case Comment =>
    rcases nl_finish_cases p (peek_next_is_space data (pos + 1)) pos
      with ⟨hT, hE⟩ | ⟨hF, hE⟩
    · exact Or.inl ⟨_, _, hE, by omega, commentStackInv_of_ne _ (fun hh => nomatch hh)⟩
    · exact Or.inr ⟨hF, _, hE⟩

theorem semicolon_step_cont (data : List Nat) (p : ContentTypeParser) (pos : Nat)
    (p' : ContentTypeParser) (pos' : Nat) (hInv : CommentStackInv p)
    (h : semicolon_step data p pos = StepRes.cont p' pos') :
    pos < pos' ∧ CommentStackInv p' := by
  unfold semicolon_step at h
  repeat' split at h
  all_goals
    (injection h with h1 h2
     subst h1
     subst h2
     refine ⟨by omega, ?_⟩
     first
     | (refine commentStackInv_of_ne _ ?_
        simp
        done)
     | (refine commentStackInv_of_eq _ p ?_ ?_ hInv <;>
         simp [add_attribute_state, add_attribute_parameter_state,
           add_partial_value_state, add_value_state, add_attr_position_state,
           accumulate_token_state, upper_update_state, resetTracking_state,
           add_attribute_stack, add_attribute_parameter_stack,
           add_partial_value_stack, add_value_stack, add_attr_position_stack,
           accumulate_token_stack, upper_update_stack, resetTracking_stack]
        done)
)

theorem star_step_cont (data : List Nat) (p : ContentTypeParser) (pos : Nat)
    (p' : ContentTypeParser) (pos' : Nat) (hInv : CommentStackInv p)
    (h : star_step data p pos = StepRes.cont p' pos') :
    pos < pos' ∧ CommentStackInv p' := by
  unfold star_step at h
  repeat' split at h
  all_goals
    (injection h with h1 h2
     subst h1
     subst h2
     refine ⟨by omega, ?_⟩
     first
     | (refine commentStackInv_of_ne _ ?_
        simp
        done)
     | (refine commentStackInv_of_eq _ p ?_ ?_ hInv <;>
         simp [add_attribute_state, add_attribute_parameter_state,
           add_partial_value_state, add_value_state, add_attr_position_state,
           accumulate_token_state, upper_update_state, resetTracking_state,
           add_attribute_stack, add_attribute_parameter_stack,
           add_partial_value_stack, add_value_stack, add_attr_position_stack,
           accumulate_token_stack, upper_update_stack, resetTracking_stack]
        done)
)

theorem equals_step_cont (dec : Rfc2047Decoder) (data : List Nat) (p : ContentTypeParser)
    (pos : Nat) (p' : ContentTypeParser) (pos' : Nat) (hInv : CommentStackInv p)
    (h : equals_step dec data p pos = StepRes.cont p' pos') :
    pos < pos' ∧ CommentStackInv p' := by
  unfold equals_step at h
  repeat' split at h
  all_goals
    (injection h with h1 h2
     subst h1
     subst h2
     refine ⟨by omega, ?_⟩
     first
     | (refine commentStackInv_of_ne _ ?_
        simp
        done)
     | (refine commentStackInv_of_eq _ p ?_ ?_ hInv <;>
         simp [add_attribute_state, add_attribute_parameter_state,
           add_partial_value_state, add_value_state, add_attr_position_state,
           accumulate_token_state, upper_update_state, resetTracking_state,
           add_attribute_stack, add_attribute_parameter_stack,
           add_partial_value_stack, add_value_stack, add_attr_position_stack,
           accumulate_token_stack, upper_update_stack, resetTracking_stack]
        done)
)

theorem quote_step_cont (data : List Nat) (p : ContentTypeParser) (pos : Nat)
    (p' : ContentTypeParser) (pos' : Nat) (hInv : CommentStackInv p)
    (h : quote_step data p pos = StepRes.cont p' pos') :
    pos < pos' ∧ CommentStackInv p' := by
  unfold quote_step at h
  repeat' split at h
  all_goals
    (injection h with h1 h2
     subst h1
     subst h2
     refine ⟨by omega, ?_⟩
     first
     | (refine commentStackInv_of_ne _ ?_
        simp
        done)
     | (refine commentStackInv_of_eq _ p ?_ ?_ hInv <;>
         simp [add_attribute_state, add_attribute_parameter_state,
           add_partial_value_state, add_value_state, add_attr_position_state,
           accumulate_token_state, upper_update_state, resetTracking_state,
           add_attribute_stack, add_attribute_parameter_stack,
           add_partial_value_stack, add_value_stack, add_attr_position_stack,
           accumulate_token_stack, upper_update_stack, resetTracking_stack]
        done)
)

theorem backslash_step_cont (data : List Nat) (p : ContentTypeParser) (pos : Nat)
    (p' : ContentTypeParser) (pos' : Nat) (hInv : CommentStackInv p)
    (h : backslash_step data p pos = StepRes.cont p' pos') :
    pos < pos' ∧ CommentStackInv p' := by
  unfold backslash_step at h
  repeat' split at h
  all_goals
    (injection h with h1 h2
     subst h1
     subst h2
     refine ⟨by omega, ?_⟩
     first
     | (refine commentStackInv_of_ne _ ?_
        simp
        done)
     | (refine commentStackInv_of_eq _ p ?_ ?_ hInv <;>
         simp [add_attribute_state, add_attribute_parameter_state,
           add_partial_value_state, add_value_state, add_attr_position_state,
           accumulate_token_state, upper_update_state, resetTracking_state,
           add_attribute_stack, add_attribute_parameter_stack,
           add_partial_value_stack, add_value_stack, add_attr_position_stack,
           accumulate_token_stack, upper_update_stack, resetTracking_stack]
        done)
)

theorem comment_open_step_cont (data : List Nat) (p : ContentTypeParser) (pos : Nat)
    (p' : ContentTypeParser) (pos' : Nat) (hInv : CommentStackInv p)
    (h : comment_open_step data p pos = StepRes.cont p' pos') :
    pos < pos' ∧ CommentStackInv p' := by
  unfold comment_open_step at h
  repeat' split at h
  all_goals
    (injection h with h1 h2
     subst h1
     subst h2
     refine ⟨by omega, ?_⟩
     first
     | (refine commentStackInv_of_ne _ ?_
        simp
        done)
     | (refine commentStackInv_of_eq _ p ?_ ?_ hInv <;>
         simp [add_attribute_state, add_attribute_parameter_state,
           add_partial_value_state, add_value_state, add_attr_position_state,
           accumulate_token_state, upper_update_state, resetTracking_state,
           add_attribute_stack, add_attribute_parameter_stack,
           add_partial_value_stack, add_value_stack, add_attr_position_stack,
           accumulate_token_stack, upper_update_stack, resetTracking_stack]
        done)
     | (refine commentStackInv_push p _ _ _ rfl ?_ ?_ hInv <;>
         simp [add_attribute_state, add_value_state,
           add_attribute_stack, add_value_stack]
        done))

theorem comment_close_step_cont (p : ContentTypeParser) (pos : Nat)
    (p' : ContentTypeParser) (pos' : Nat) (hc : p.state = ContentState.Comment)
    (hInv : CommentStackInv p)
    (h : comment_close_step p pos = StepRes.cont p' pos') :
    pos < pos' ∧ CommentStackInv p' := by
  unfold comment_close_step at h
  repeat' split at h
  · rename_i hesc top rest heq
    injection h with h1 h2
    subst h1
    subst h2
    exact ⟨by omega, commentStackInv_pop p top rest heq hc hInv⟩
  · cases h
  · injection h with h1 h2
    subst h1
    subst h2
    exact ⟨by omega, commentStackInv_of_eq _ p rfl rfl hInv⟩

theorem comment_close_step_done (p : ContentTypeParser) (pos : Nat) (r : Option HeaderValue)
    (h : comment_close_step p pos = StepRes.done r) :
    r = none ∧ p.state_stack = [] := by
  unfold comment_close_step at h
  repeat' split at h
  · cases h
  · rename_i hesc heq
    injection h with h1
    exact ⟨h1.symm, heq⟩
  · cases h

/-- Every `cont` outcome of one step advances the stream position and
preserves the comment-stack invariant. -/
theorem contentTypeStep_cont (dec : Rfc2047Decoder) (data : List Nat)
    (p : ContentTypeParser) (pos : Nat) (p' : ContentTypeParser) (pos' : Nat)
    (hInv : CommentStackInv p)
    (h : contentTypeStep dec data p pos = StepRes.cont p' pos') :
    pos < pos' ∧ CommentStackInv p' := by
  unfold contentTypeStep at h
  by_cases hpos : pos < data.length
  swap
  · rw [if_neg hpos] at h
    cases h
  rw [if_pos hpos] at h
  by_cases hc1 : data.getD pos 0 = 32 ∨ data.getD pos 0 = 9
  · rw [if_pos hc1] at h
    exact whitespace_step_cont _ _ _ _ hInv h
  rw [if_neg hc1] at h
  by_cases hc2 : 65 ≤ data.getD pos 0 ∧ data.getD pos 0 ≤ 90
  · rw [if_pos hc2] at h
    injection h with h1 h2
    subst h1
    subst h2
    refine ⟨by omega, ?_⟩
    refine commentStackInv_of_eq _ p ?_ ?_ hInv <;>
      simp [accumulate_token_state, upper_update_state,
        accumulate_token_stack, upper_update_stack]
  rw [if_neg hc2] at h
  by_cases hc3 : data.getD pos 0 = 10
  · rw [if_pos hc3] at h
    rcases newline_step_cases data p pos hInv with ⟨q, qpos, hE, hlt, hI⟩ | ⟨hpk, hv, hE⟩
    · rw [hE] at h
      injection h with h1 h2
      subst h1
      subst h2
      exact ⟨hlt, hI⟩
    · rw [hE] at h
      cases h
  rw [if_neg hc3] at h
  by_cases hc4 : data.getD pos 0 = 47 ∧ p.state = ContentState.Type_
  · rw [if_pos hc4] at h
    injection h with h1 h2
    subst h1
    subst h2
    refine ⟨by omega, ?_⟩
    refine commentStackInv_of_ne _ ?_
    simp
  rw [if_neg hc4] at h
  by_cases hc5 : data.getD pos 0 = 59
  · rw [if_pos hc5] at h
    exact semicolon_step_cont _ _ _ _ _ hInv h
  rw [if_neg hc5] at h
  by_cases hc6 : data.getD pos 0 = 42 ∧ p.state = ContentState.AttributeName
  · rw [if_pos hc6] at h
    exact star_step_cont _ _ _ _ _ hInv h
  rw [if_neg hc6] at h
  by_cases hc7 : data.getD pos 0 = 61
  · rw [if_pos hc7] at h
    exact equals_step_cont _ _ _ _ _ _ hInv h
  rw [if_neg hc7] at h
  by_cases hc8 : data.getD pos 0 = 34
  · rw [if_pos hc8] at h
    exact quote_step_cont _ _ _ _ _ hInv h
  rw [if_neg hc8] at h
  by_cases hc9 : data.getD pos 0 = 92
  · rw [if_pos hc9] at h
    exact backslash_step_cont _ _ _ _ _ hInv h
  rw [if_neg hc9] at h
  by_cases hc10 : data.getD pos 0 = 39 ∧ p.is_encoded_attribute = true ∧
      p.is_escaped = false ∧ (p.state = ContentState.AttributeValue ∨
        p.state = ContentState.AttributeQuotedValue)
  · rw [if_pos hc10] at h
    injection h with h1 h2
    subst h1
    subst h2
    refine ⟨by omega, ?_⟩
    exact commentStackInv_of_eq _ p (add_attribute_parameter_state p data)
      (add_attribute_parameter_stack p data) hInv
  rw [if_neg hc10] at h
  by_cases hc11 : data.getD pos 0 = 40 ∧ p.state ≠ ContentState.AttributeQuotedValue
  · rw [if_pos hc11] at h
    exact comment_open_step_cont _ _ _ _ _ hInv h
  rw [if_neg hc11] at h
  by_cases hc12 : data.getD pos 0 = 41 ∧ p.state = ContentState.Comment
  · rw [if_pos hc12] at h
    exact comment_close_step_cont p pos p' pos' hc12.2 hInv h
  rw [if_neg hc12] at h
  by_cases hc13 : data.getD pos 0 = 13
  · rw [if_pos hc13] at h
    injection h with h1 h2
    subst h1
    subst h2
    exact ⟨by omega, commentStackInv_of_eq _ p rfl rfl hInv⟩
  rw [if_neg hc13] at h
  injection h with h1 h2
  subst h1
  subst h2
  refine ⟨by omega, ?_⟩
  exact commentStackInv_of_eq _ p (accumulate_token_state p (pos + 1))
    (accumulate_token_stack p (pos + 1)) hInv

/-- Every `done` outcome is a normal return reached either at the end of
the input (yielding `some Empty`) or at an unfolded line feed; under the
comment-stack invariant the `none` (panic) outcome never occurs. -/
theorem contentTypeStep_done (dec : Rfc2047Decoder) (data : List Nat)
    (p : ContentTypeParser) (pos : Nat) (r : Option HeaderValue)
    (hInv : CommentStackInv p)
    (h : contentTypeStep dec data p pos = StepRes.done r) :
    (data.length ≤ pos ∧ r = some HeaderValue.Empty) ∨
    (pos < data.length ∧ data.getD pos 0 = 10 ∧
      peek_next_is_space data (pos + 1) = false ∧ ∃ hv, r = some hv) := by
  unfold contentTypeStep at h
  by_cases hpos : pos < data.length
  swap
  · rw [if_neg hpos] at h
    injection h with h1
    exact Or.inl ⟨Nat.le_of_not_lt hpos, h1.symm⟩
  rw [if_pos hpos] at h
  by_cases hc1 : data.getD pos 0 = 32 ∨ data.getD pos 0 = 9
  · rw [if_pos hc1] at h
    unfold whitespace_step at h
    repeat' split at h
    all_goals cases h
  rw [if_neg hc1] at h
  by_cases hc2 : 65 ≤ data.getD pos 0 ∧ data.getD pos 0 ≤ 90
  · rw [if_pos hc2] at h
    cases h
  rw [if_neg hc2] at h
  by_cases hc3 : data.getD pos 0 = 10
  · rw [if_pos hc3] at h
    rcases newline_step_cases data p pos hInv with ⟨q, qpos, hE, hlt, hI⟩ | ⟨hpk, hv, hE⟩
    · rw [hE] at h
      cases h
    · rw [hE] at h
      injection h with h1
      exact Or.inr ⟨hpos, hc3, hpk, hv, h1.symm⟩
  rw [if_neg hc3] at h
  by_cases hc4 : data.getD pos 0 = 47 ∧ p.state = ContentState.Type_
  · rw [if_pos hc4] at h
    cases h
  rw [if_neg hc4] at h
  by_cases hc5 : data.getD pos 0 = 59
  · rw [if_pos hc5] at h
    unfold semicolon_step at h
    repeat' split at h
    all_goals cases h
  rw [if_neg hc5] at h
  by_cases hc6 : data.getD pos 0 = 42 ∧ p.state = ContentState.AttributeName
  · rw [if_pos hc6] at h
    unfold star_step at h
    repeat' split at h
    all_goals cases h
  rw [if_neg hc6] at h
  by_cases hc7 : data.getD pos 0 = 61
  · rw [if_pos hc7] at h
    unfold equals_step at h
    repeat' split at h
    all_goals cases h
  rw [if_neg hc7] at h
  by_cases hc8 : data.getD pos 0 = 34
  · rw [if_pos hc8] at h
    unfold quote_step at h
    repeat' split at h
    all_goals cases h
  rw [if_neg hc8] at h
  by_cases hc9 : data.getD pos 0 = 92
  · rw [if_pos hc9] at h
    unfold backslash_step at h
    repeat' split at h
    all_goals cases h
  rw [if_neg hc9] at h
  by_cases hc10 : data.getD pos 0 = 39 ∧ p.is_encoded_attribute = true ∧
      p.is_escaped = false ∧ (p.state = ContentState.AttributeValue ∨
        p.state = ContentState.AttributeQuotedValue)
  · rw [if_pos hc10] at h
    cases h
  rw [if_neg hc10] at h
  by_cases hc11 : data.getD pos 0 = 40 ∧ p.state ≠ ContentState.AttributeQuotedValue
  · rw [if_pos hc11] at h
    unfold comment_open_step at h
    repeat' split at h
    all_goals cases h
  rw [if_neg hc11] at h
  by_cases hc12 : data.getD pos 0 = 41 ∧ p.state = ContentState.Comment
  · rw [if_pos hc12] at h
    have hcc := comment_close_step_done p pos r h
    exfalso
    have h2 := hInv hc12.2
    rw [hcc.2] at h2
    simp [countComment] at h2
  rw [if_neg hc12] at h
  by_cases hc13 : data.getD pos 0 = 13
  · rw [if_pos hc13] at h
    cases h
  rw [if_neg hc13] at h
  cases h

/-- A `cont` outcome only arises while input remains. -/
theorem contentTypeStep_cont_lt (dec : Rfc2047Decoder) (data : List Nat)
    (p : ContentTypeParser) (pos : Nat) (p' : ContentTypeParser) (pos' : Nat)
    (h : contentTypeStep dec data p pos = StepRes.cont p' pos') : pos < data.length := by
  by_cases hpos : pos < data.length
  · exact hpos
  · unfold contentTypeStep at h
    rw [if_neg hpos] at h
    cases h

/-- With sufficient fuel the loop always returns normally (`some _`) from
any state satisfying the comment-stack invariant. -/
theorem contentTypeLoop_total (dec : Rfc2047Decoder) (data : List Nat) :
    ∀ fuel (p : ContentTypeParser) (pos : Nat), CommentStackInv p →
      data.length - pos < fuel →
      ∃ hv, contentTypeLoop dec data fuel p pos = some hv := by
  intro fuel
  induction fuel with
  | zero =>
    intro p pos _ hf
    omega
  | succ n ih =>
    intro p pos hInv hf
    cases hstep : contentTypeStep dec data p pos with
    | done r =>
      rcases contentTypeStep_done dec data p pos r hInv hstep with ⟨_, hr⟩ |
        ⟨_, _, _, hv, hr⟩
      · exact ⟨HeaderValue.Empty, by simp only [contentTypeLoop, hstep, hr]⟩
      · exact ⟨hv, by simp only [contentTypeLoop, hstep, hr]⟩
    | cont p' pos' =>
      obtain ⟨hlt, hInv'⟩ := contentTypeStep_cont dec data p pos p' pos' hInv hstep
      have hplen := contentTypeStep_cont_lt dec data p pos p' pos' hstep
      have hrec := ih p' pos' hInv' (by omega)
      obtain ⟨hv, hrec⟩ := hrec
      exact ⟨hv, by simp only [contentTypeLoop, hstep]; exact hrec⟩

/-- If every line feed in the input is folded (followed in bounds by a
space or tab), the loop runs off the end of the input and returns the
explicit empty value, discarding all partial results. -/
theorem contentTypeLoop_folded (dec : Rfc2047Decoder) (data : List Nat)
    (hfold : ∀ i, i < data.length → data.getD i 0 = 10 →
      peek_next_is_space data (i + 1) = true) :
    ∀ fuel (p : ContentTypeParser) (pos : Nat), CommentStackInv p →
      data.length - pos < fuel →
      contentTypeLoop dec data fuel p pos = some HeaderValue.Empty := by
  intro fuel
  induction fuel with
  | zero =>
    intro p pos _ hf
    omega
  | succ n ih =>
    intro p pos hInv hf
    cases hstep : contentTypeStep dec data p pos with
    | done r =>
      rcases contentTypeStep_done dec data p pos r hInv hstep with ⟨_, hr⟩ |
        ⟨hlt, h10, hpk, _⟩
      · simp only [contentTypeLoop, hstep, hr]
      · rw [hfold pos hlt h10] at hpk
        cases hpk
    | cont p' pos' =>
      obtain ⟨hlt, hInv'⟩ := contentTypeStep_cont dec data p pos p' pos' hInv hstep
      have hplen := contentTypeStep_cont_lt dec data p pos p' pos' hstep
      simp only [contentTypeLoop, hstep]
      exact ih p' pos' hInv' (by omega)

/-- The initial parser state satisfies the comment-stack invariant. -/
theorem newContentTypeParser_inv : CommentStackInv newContentTypeParser :=
  fun hc => nomatch hc

/-! ### Claim theorems -/

/-- C1: for every input byte sequence, `parse_content_type` returns
normally — it never raises: there is always a result, which is either a
`ContentType` value or the explicit `Empty` value; the return site yields
`Empty` exactly when no type token was finalized (never a
partially-populated result with an absent type); and the spec's missing
type examples `"/invalid\n"`, `";\n"`, `"/ ; name=value\n"` all yield the
empty result. -/
theorem C1_parse_returns_normally :
    (∀ (dec : Rfc2047Decoder) (data : List Nat),
      ∃ hv, parse_content_type dec data = some hv) ∧
    (∀ p : ContentTypeParser,
      finish_content_type p = HeaderValue.Empty ↔ p.c_type = none) ∧
    parse_content_type decode_rfc2047_fail (strBytes "/invalid\n") =
      some HeaderValue.Empty ∧
    parse_content_type decode_rfc2047_fail (strBytes ";\n") = some HeaderValue.Empty ∧
    parse_content_type decode_rfc2047_fail (strBytes "/ ; name=value\n") =
      some HeaderValue.Empty := by
  refine ⟨?_, ?_, ?_, ?_, ?_⟩
  · intro dec data
    exact contentTypeLoop_total dec data _ newContentTypeParser 0
      newContentTypeParser_inv (by omega)
  · intro p
    unfold finish_content_type
    cases hc : p.c_type <;> simp
  · decide
  · decide
  · decide

/-- C9: if the input is exhausted before any unfolded line-feed terminator
(every `\n`, if any, is followed in bounds by a space or tab, so the field
never properly ends), `parse_content_type` returns `Empty`, discarding any
partial type / subtype / attributes. -/
theorem C9_unterminated_input_yields_empty (dec : Rfc2047Decoder) (data : List Nat)
    (hfold : ∀ i, i < data.length → data.getD i 0 = 10 →
      peek_next_is_space data (i + 1) = true) :
    parse_content_type dec data = some HeaderValue.Empty :=
  contentTypeLoop_folded dec data hfold _ newContentTypeParser 0
    newContentTypeParser_inv (by omega)

/-- Witness for C9: `"text/plain; charset=utf-8"` without a terminating
line feed parses to `Empty` even though a type was seen. -/
theorem C9_witness :
    parse_content_type decode_rfc2047_fail (strBytes "text/plain; charset=utf-8") =
      some HeaderValue.Empty :=
  C9_unterminated_input_yields_empty decode_rfc2047_fail
    (strBytes "text/plain; charset=utf-8") (by decide)

/-- C10: whenever the parser state satisfies the comment-stack invariant —
in `Comment` state the stack holds more entries than nested `Comment`
entries, which the initial state does and every transition preserves — the
loop returns normally: the `state_stack.pop().unwrap()` in the `)` handler
(modelled as the `none` result) can never fire. -/
theorem C10_comment_stack_pop_never_panics (dec : Rfc2047Decoder) (data : List Nat)
    (fuel : Nat) (p : ContentTypeParser) (pos : Nat)
    (hInv : CommentStackInv p) (hfuel : data.length - pos < fuel) :
    (contentTypeLoop dec data fuel p pos).isSome := by
  obtain ⟨hv, h⟩ := contentTypeLoop_total dec data fuel p pos hInv hfuel
  rw [h]
  rfl

/-- Witness for C10: a nested-comment input with unmatched `)` runs from
the initial state without hitting the panic path. -/
theorem C10_witness :
    CommentStackInv newContentTypeParser ∧
    (strBytes "(a(b)c)) text/plain ()\n").length - 0 < 64 ∧
    (contentTypeLoop decode_rfc2047_fail (strBytes "(a(b)c)) text/plain ()\n") 64
      newContentTypeParser 0).isSome :=
  And.intro (fun hc => nomatch hc) (And.intro (by decide)
    (C10_comment_stack_pop_never_panics decode_rfc2047_fail
      (strBytes "(a(b)c)) text/plain ()\n") 64 newContentTypeParser 0
      (fun hc => nomatch hc) (by decide)))

set_option maxHeartbeats 4000000 in
/-- C3: continuation reassembly is order-independent: `merge_continuations`
gives identical results for any two permutations of the deferred
`(name, position, value)` tuples (they are sorted by name, then ascending
numeric position, then value, a total antisymmetric order), and the two
spec orderings `attr*1=b; attr*0=a` and `attr*0=a; attr*1=b` both produce
attribute `attr` = `"ab"`. -/
theorem C3_continuation_merge_order_independent :
    (∀ (p : ContentTypeParser) (c1 c2 : List Continuation), c1.Perm c2 →
      merge_continuations {p with continuations := some c1} =
        merge_continuations {p with continuations := some c2}) ∧
    parse_content_type decode_rfc2047_fail (strBytes "a/b; attr*1=b; attr*0=a\n") =
      parse_content_type decode_rfc2047_fail (strBytes "a/b; attr*0=a; attr*1=b\n") ∧
    parse_content_type decode_rfc2047_fail (strBytes "a/b; attr*1=b; attr*0=a\n") =
      some (HeaderValue.ContentType
        { c_type := strBytes "a", c_subtype := some (strBytes "b"),
          attributes := some [(strBytes "attr", strBytes "ab")] }) := by
  have h1 : parse_content_type decode_rfc2047_fail (strBytes "a/b; attr*1=b; attr*0=a\n") =
      some (HeaderValue.ContentType
        { c_type := strBytes "a", c_subtype := some (strBytes "b"),
          attributes := some [(strBytes "attr", strBytes "ab")] }) := by rfl
  have h2 : parse_content_type decode_rfc2047_fail (strBytes "a/b; attr*0=a; attr*1=b\n") =
      some (HeaderValue.ContentType
        { c_type := strBytes "a", c_subtype := some (strBytes "b"),
          attributes := some [(strBytes "attr", strBytes "ab")] }) := by rfl
  refine ⟨?_, h1.trans h2.symm, h1⟩
  intro p c1 c2 hperm
  unfold merge_continuations
  dsimp only
  rw [Option.getD_some, Option.getD_some, sortContinuations_eq_of_perm c1 c2 hperm]

/-- Witness for C3: the two orderings of the example's deferred tuples are
a permutation and merge to the same parser state. -/
theorem C3_witness :
    ([(strBytes "attr", 1, strBytes "b"), (strBytes "attr", 0, strBytes "a")] :
        List Continuation).Perm
      [(strBytes "attr", 0, strBytes "a"), (strBytes "attr", 1, strBytes "b")] ∧
    merge_continuations
        {newContentTypeParser with
          continuations := some ([(strBytes "attr", 1, strBytes "b"),
            (strBytes "attr", 0, strBytes "a")])} =
      merge_continuations
        {newContentTypeParser with
          continuations := some ([(strBytes "attr", 0, strBytes "a"),
            (strBytes "attr", 1, strBytes "b")])} :=
  And.intro (List.Perm.swap _ _ _)
    (C3_continuation_merge_order_independent.1 newContentTypeParser _ _
      (List.Perm.swap _ _ _))

set_option maxHeartbeats 8000000 in
set_option maxRecDepth 8000 in
/-- C4: in an RFC 2231 encoded segment, the first `'` stores the pending
token (its UTF-8 text, `from_utf8_lossy` of the span) as the charset name;
the second stores it as the synthetic `<attribute>-language` attribute when
that name is not already present; and the spec's example (charset plus
language prefix on segment 0 only, here `us-ascii`/`en`) yields
`title-language` = `en` and `title` equal to the percent-hex-decoded,
charset-decoded segment-0 text with segment 1's text appended. -/
theorem C4_encoded_continuation_charset_and_language :
    (∀ (p : ContentTypeParser) (data : List Nat), p.token_start > 0 →
      (p.attr_charset = none →
        add_attribute_parameter p data =
          resetTracking {p with
            attr_charset :=
              some (utf8_lossy (sliceBytes data (p.token_start - 1) p.token_end))}) ∧
      (∀ cs, p.attr_charset = some cs →
        p.attributes.any (fun pr =>
            decide (pr.1 = (p.attr_name.getD (strBytes "unknown")) ++ strBytes "-language")) =
          false →
        add_attribute_parameter p data =
          resetTracking {p with
            attributes := (p.attributes ++
              [((p.attr_name.getD (strBytes "unknown")) ++ strBytes "-language",
                utf8_lossy (sliceBytes data (p.token_start - 1) p.token_end))])})) ∧
    parse_content_type decode_rfc2047_fail
        (strBytes "application/x-stuff; title*0*=us-ascii" ++ [39] ++ strBytes "en" ++
          [39] ++ strBytes "This%20is%20fun; title*1=\" more\"\n") =
      some (HeaderValue.ContentType
        { c_type := strBytes "application", c_subtype := some (strBytes "x-stuff"),
          attributes := some [(strBytes "title-language", strBytes "en"),
            (strBytes "title", strBytes "This is fun more")] }) := by
  constructor
  · intro p data htok
    constructor
    · intro hcs
      unfold add_attribute_parameter
      rw [if_pos htok]
      dsimp only
      rw [if_pos hcs]
    · intro cs hcs hany
      unfold add_attribute_parameter
      rw [if_pos htok]
      dsimp only
      rw [if_neg (by simp [hcs]), if_pos (by simp [hany])]
  · rfl

/-- Witness for C4: a concrete charset capture through
`add_attribute_parameter`. -/
theorem C4_witness :
    add_attribute_parameter {newContentTypeParser with token_start := 1, token_end := 2}
        (strBytes "us") =
      resetTracking {{newContentTypeParser with token_start := 1, token_end := 2} with
        attr_charset := some (utf8_lossy (sliceBytes (strBytes "us") 0 2))} :=
  ((C4_encoded_continuation_charset_and_language.1
      {newContentTypeParser with token_start := 1, token_end := 2}
      (strBytes "us") (by decide)).1) rfl

/-- Names present after `updateOrAppend` come from the original list or are
the inserted key. -/
theorem mem_names_updateOrAppend :
    ∀ (attrs : List (List Nat × List Nat)) (k v m : List Nat),
      m ∈ (updateOrAppend attrs k v).map Prod.fst → m ∈ attrs.map Prod.fst ∨ m = k := by
  intro attrs
  induction attrs with
  | nil =>
    intro k v m hm
    simp [updateOrAppend] at hm
    exact Or.inr hm
  | cons pr rest ih =>
    intro k v m hm
    obtain ⟨n, ov⟩ := pr
    unfold updateOrAppend at hm
    by_cases h : n = k
    · rw [if_pos h] at hm
      simp only [List.map_cons, List.mem_cons] at hm ⊢
      exact Or.inl hm
    · rw [if_neg h] at hm
      simp only [List.map_cons, List.mem_cons] at hm ⊢
      rcases hm with h1 | h1
      · exact Or.inl (Or.inl h1)
      · rcases ih k v m h1 with h2 | h2
        · exact Or.inl (Or.inr h2)
        · exact Or.inr h2

/-- `updateOrAppend` preserves distinctness of attribute names. -/
theorem updateOrAppend_names_nodup :
    ∀ (attrs : List (List Nat × List Nat)) (k v : List Nat),
      (attrs.map Prod.fst).Nodup → ((updateOrAppend attrs k v).map Prod.fst).Nodup := by
  intro attrs
  induction attrs with
  | nil =>
    intro k v _
    simp [updateOrAppend]
  | cons pr rest ih =>
    intro k v hnd
    obtain ⟨n, ov⟩ := pr
    unfold updateOrAppend
    by_cases h : n = k
    · rw [if_pos h]
      simpa using hnd
    · rw [if_neg h]
      simp only [List.map_cons, List.nodup_cons] at hnd ⊢
      refine ⟨?_, ih k v hnd.2⟩
      intro hmem
      rcases mem_names_updateOrAppend rest k v n hmem with h1 | h1
      · exact hnd.1 h1
      · exact h h1

/-- The continuation-merging fold preserves distinctness of names. -/
theorem foldl_updateOrAppend_nodup :
    ∀ (conts : List Continuation) (attrs : List (List Nat × List Nat)),
      (attrs.map Prod.fst).Nodup →
      ((conts.foldl (fun a c => updateOrAppend a c.1 c.2.2) attrs).map Prod.fst).Nodup := by
  intro conts
  induction conts with
  | nil =>
    intro attrs h
    exact h
  | cons c rest ih =>
    intro attrs h
    exact ih _ (updateOrAppend_names_nodup attrs c.1 c.2.2 h)

/-- Counterexample to C5: two plain attributes with the same name are both
pushed by `add_value`, so the final attribute list of
`"a/b; x=1; x=2\n"` holds the name `x` twice. -/
theorem C5_counterexample :
    parse_content_type decode_rfc2047_fail (strBytes "a/b; x=1; x=2\n") =
      some (HeaderValue.ContentType
        { c_type := strBytes "a", c_subtype := some (strBytes "b"),
          attributes := some [(strBytes "x", strBytes "1"),
            (strBytes "x", strBytes "2")] }) ∧
    ¬ (([(strBytes "x", strBytes "1"), (strBytes "x", strBytes "2")].map
        Prod.fst).Nodup) :=
  And.intro (by rfl) (by decide)

/-- C5 as amended: the two paths the claim's sources point at do keep names
unique — `merge_continuations` never inserts a second entry for an existing
name (it appends to the first match) and `add_attribute_parameter` inserts
the synthetic language attribute only when absent — but attributes pushed
directly by `add_value` may repeat, as the counterexample shows. -/
theorem C5_amended_no_new_duplicate_names :
    (∀ p : ContentTypeParser, (p.attributes.map Prod.fst).Nodup →
      ((merge_continuations p).attributes.map Prod.fst).Nodup) ∧
    (∀ (p : ContentTypeParser) (data : List Nat), (p.attributes.map Prod.fst).Nodup →
      ((add_attribute_parameter p data).attributes.map Prod.fst).Nodup) := by
  constructor
  · intro p h
    unfold merge_continuations
    dsimp only
    exact foldl_updateOrAppend_nodup _ _ h
  · intro p data h
    unfold add_attribute_parameter
    by_cases htok : p.token_start > 0
    · rw [if_pos htok]
      dsimp only
      by_cases hcs : p.attr_charset = none
      · rw [if_pos hcs]
        exact h
      · rw [if_neg hcs]
        cases hb : p.attributes.any (fun pr =>
            decide (pr.1 = (p.attr_name.getD (strBytes "unknown")) ++ strBytes "-language"))
        · rw [if_pos (by simp)]
          unfold resetTracking
          dsimp only
          simp only [List.map_append, List.map_cons, List.map_nil]
          rw [List.nodup_append]
          refine ⟨h, List.nodup_singleton _, ?_⟩
          intro m hm hm2
          simp only [List.mem_cons, List.not_mem_nil, or_false] at hm2
          subst hm2
          simp only [List.mem_map] at hm
          obtain ⟨pr, hpr, hpr2⟩ := hm
          have := List.any_eq_false.mp hb pr hpr
          simp [hpr2] at this
        · rw [if_neg (by simp)]
          exact h
    · rw [if_neg htok]
      exact h

/-- Witness for C5's amended statement: merging a deferred continuation
into a distinct-name attribute list keeps the names distinct. -/
theorem C5_witness :
    (([(strBytes "a", strBytes "1")].map Prod.fst).Nodup) ∧
    (((merge_continuations {newContentTypeParser with
        attributes := [(strBytes "a", strBytes "1")],
        continuations := some ([(strBytes "b", 1, strBytes "x")])}).attributes.map
          Prod.fst).Nodup) :=
  And.intro (by decide)
    (C5_amended_no_new_duplicate_names.1 {newContentTypeParser with
        attributes := [(strBytes "a", strBytes "1")],
        continuations := some ([(strBytes "b", 1, strBytes "x")])} (by decide))

/-- On all-ASCII input the lossy UTF-8 conversion is the identity. -/
theorem utf8_lossy_go_ascii : ∀ (fuel : Nat) (l : List Nat), l.length ≤ fuel →
    (∀ b ∈ l, b < 128) → utf8_lossy_go fuel l = l := by
  intro fuel
  induction fuel with
  | zero =>
    intro l hl _
    cases l with
    | nil => rfl
    | cons b r => simp at hl
  | succ f ih =>
    intro l hl hb
    cases l with
    | nil => rfl
    | cons b r =>
      simp only [utf8_lossy_go]
      rw [if_pos (hb b (by simp))]
      rw [ih r (by simp only [List.length_cons] at hl; omega)
        (fun x hx => hb x (by simp [hx]))]

/-- On all-ASCII input `String::from_utf8_lossy` returns the input. -/
theorem utf8_lossy_ascii (l : List Nat) (h : ∀ b ∈ l, b < 128) : utf8_lossy l = l :=
  utf8_lossy_go_ascii l.length l le_rfl h

/-- Every byte of the lossy conversion comes from the input or from the
U+FFFD replacement bytes. -/
theorem utf8_lossy_go_mem : ∀ (fuel : Nat) (l : List Nat) (b : Nat),
    b ∈ utf8_lossy_go fuel l → b ∈ l ∨ b = 239 ∨ b = 191 ∨ b = 189 := by
  intro fuel
  induction fuel with
  | zero =>
    intro l b hb
    cases l <;> simp [utf8_lossy_go] at hb
  | succ f ih =>
    intro l b hb
    cases l with
    | nil => simp [utf8_lossy_go] at hb
    | cons c r =>
      simp only [utf8_lossy_go] at hb
      have tailmem : ∀ (s : List Nat), (∀ x ∈ s, x ∈ c :: r) →
          b ∈ utf8_lossy_go f s → b ∈ c :: r ∨ b = 239 ∨ b = 191 ∨ b = 189 := by
        intro s hsub hbs
        rcases ih s b hbs with h | h
        · exact Or.inl (hsub b h)
        · exact Or.inr h
      have fffd : ∀ (s : List Nat), (∀ x ∈ s, x ∈ c :: r) →
          b ∈ 239 :: 191 :: 189 :: utf8_lossy_go f s →
          b ∈ c :: r ∨ b = 239 ∨ b = 191 ∨ b = 189 := by
        intro s hsub hbs
        rcases List.mem_cons.mp hbs with h | hbs
        · exact Or.inr (Or.inl h)
        rcases List.mem_cons.mp hbs with h | hbs
        · exact Or.inr (Or.inr (Or.inl h))
        rcases List.mem_cons.mp hbs with h | hbs
        · exact Or.inr (Or.inr (Or.inr h))
        exact tailmem s hsub hbs
      by_cases h1 : c < 128
      · rw [if_pos h1] at hb
        rcases List.mem_cons.mp hb with h | hb
        · exact Or.inl (by simp [h])
        · exact tailmem r (fun x hx => by simp [hx]) hb
      rw [if_neg h1] at hb
      by_cases h2 : 194 ≤ c ∧ c ≤ 223
      · rw [if_pos h2] at hb
        cases r with
        | nil =>
          simp only [List.mem_cons, List.not_mem_nil, or_false] at hb
          exact Or.inr hb
        | cons c2 r2 =>
          dsimp only at hb
          by_cases h3 : utf8_cont1_ok c c2 = true
          · rw [if_pos h3] at hb
            rcases List.mem_cons.mp hb with h | hb
            · exact Or.inl (by simp [h])
            rcases List.mem_cons.mp hb with h | hb
            · exact Or.inl (by simp [h])
            exact tailmem r2 (fun x hx => by simp [hx]) hb
          · rw [if_neg h3] at hb
            exact fffd (c2 :: r2) (fun x hx => by simp [hx]) hb
      rw [if_neg h2] at hb
      by_cases h4 : 224 ≤ c ∧ c ≤ 239
      · rw [if_pos h4] at hb
        cases r with
        | nil =>
          simp only [List.mem_cons, List.not_mem_nil, or_false] at hb
          exact Or.inr hb
        | cons c2 r2 =>
          dsimp only at hb
          by_cases h3 : utf8_cont1_ok c c2 = true
          · rw [if_pos h3] at hb
            cases r2 with
            | nil =>
              simp only [List.mem_cons, List.not_mem_nil, or_false] at hb
              exact Or.inr hb
            | cons c3 r3 =>
              dsimp only at hb
              by_cases h5 : utf8_cont c3 = true
              · rw [if_pos h5] at hb
                rcases List.mem_cons.mp hb with h | hb
                · exact Or.inl (by simp [h])
                rcases List.mem_cons.mp hb with h | hb
                · exact Or.inl (by simp [h])
                rcases List.mem_cons.mp hb with h | hb
                · exact Or.inl (by simp [h])
                exact tailmem r3 (fun x hx => by simp [hx]) hb
              · rw [if_neg h5] at hb
                exact fffd (c3 :: r3) (fun x hx => by simp [hx]) hb
          · rw [if_neg h3] at hb
            exact fffd (c2 :: r2) (fun x hx => by simp [hx]) hb
      rw [if_neg h4] at hb
      by_cases h6 : 240 ≤ c ∧ c ≤ 244
      · rw [if_pos h6] at hb
        cases r with
        | nil =>
          simp only [List.mem_cons, List.not_mem_nil, or_false] at hb
          exact Or.inr hb
        | cons c2 r2 =>
          dsimp only at hb
          by_cases h3 : utf8_cont1_ok c c2 = true
          · rw [if_pos h3] at hb
            cases r2 with
            | nil =>
              simp only [List.mem_cons, List.not_mem_nil, or_false] at hb
              exact Or.inr hb
            | cons c3 r3 =>
              dsimp only at hb
              by_cases h5 : utf8_cont c3 = true
              · rw [if_pos h5] at hb
                cases r3 with
                | nil =>
                  simp only [List.mem_cons, List.not_mem_nil, or_false] at hb
                  exact Or.inr hb
                | cons c4 r4 =>
                  dsimp only at hb
                  by_cases h7 : utf8_cont c4 = true
                  · rw [if_pos h7] at hb
                    rcases List.mem_cons.mp hb with h | hb
                    · exact Or.inl (by simp [h])
                    rcases List.mem_cons.mp hb with h | hb
                    · exact Or.inl (by simp [h])
                    rcases List.mem_cons.mp hb with h | hb
                    · exact Or.inl (by simp [h])
                    rcases List.mem_cons.mp hb with h | hb
                    · exact Or.inl (by simp [h])
                    exact tailmem r4 (fun x hx => by simp [hx]) hb
                  · rw [if_neg h7] at hb
                    exact fffd (c4 :: r4) (fun x hx => by simp [hx]) hb
              · rw [if_neg h5] at hb
                exact fffd (c3 :: r3) (fun x hx => by simp [hx]) hb
          · rw [if_neg h3] at hb
            exact fffd (c2 :: r2) (fun x hx => by simp [hx]) hb
      rw [if_neg h6] at hb
      exact fffd r (fun x hx => by simp [hx]) hb

/-- Every byte of `utf8_lossy l` comes from `l` or from the U+FFFD bytes. -/
theorem utf8_lossy_mem (l : List Nat) (b : Nat) (hb : b ∈ utf8_lossy l) :
    b ∈ l ∨ b = 239 ∨ b = 191 ∨ b = 189 :=
  utf8_lossy_go_mem l.length l b hb

/-- Counterexample to C6, refuting both the invariant and the unquoted-fold
clause.  First, a bare CR inside an unquoted value token is skipped by the
dispatcher but retained in the borrowed span, so `"a/b; n=x\ry\n"` produces
the attribute value `x\ry` — bytes `[120, 13, 121]` — with a raw CR (13)
embedded.  Second, a folded line break inside an unquoted value is not
replaced by a single space: `"a/b; n=foo\n bar\n"` yields `n` = `foo`, not
`foo bar` — the fold finalizes the value and the trailing `bar` never
becomes part of it. -/
theorem C6_counterexample :
    (parse_content_type decode_rfc2047_fail (strBytes "a/b; n=x\ry\n") =
      some (HeaderValue.ContentType
        { c_type := strBytes "a", c_subtype := some (strBytes "b"),
          attributes := some [(strBytes "n", [120, 13, 121])] }) ∧
      13 ∈ ([120, 13, 121] : List Nat)) ∧
    (parse_content_type decode_rfc2047_fail (strBytes "a/b; n=foo\n bar\n") =
      some (HeaderValue.ContentType
        { c_type := strBytes "a", c_subtype := some (strBytes "b"),
          attributes := some [(strBytes "n", strBytes "foo")] }) ∧
      strBytes "foo" ≠ strBytes "foo bar") :=
  And.intro (And.intro (by rfl) (by decide)) (And.intro (by rfl) (by decide))

/-- C6 as amended.  First conjunct: a plain (non-continuation) attribute
value finalized with the fold flag set (`remove_crlf`, the quoted-value
folded-line-break case) while a span is pending and no earlier fragments
were flushed contains no CR and no LF byte — the span is filtered of CR/LF
before the UTF-8 conversion, whose replacement bytes are not CR/LF either.
Second conjunct: a folded line break inside an unquoted value terminates
the value — the `\n` arm in `AttributeValue` state finalizes the pending
value through `add_value` and continues with the next attribute name after
the fold — rather than becoming a space.  Third conjunct: the spec's quoted
fold example decodes to `"foo bar"`.  CR/LF can still survive in fragments
flushed before finalization and in unquoted spans, as the counterexample
shows. -/
theorem C6_amended_remove_crlf_strips_span :
    (∀ (p : ContentTypeParser) (data name : List Nat),
      p.attr_name = some name → p.values = [] → p.remove_crlf = true →
      p.token_start > 0 → p.is_continuation = false →
      ∃ nv, (add_value p data).attributes = p.attributes ++ [(name, nv)] ∧
        ∀ b ∈ nv, b ≠ 13 ∧ b ≠ 10) ∧
    (∀ (dec : Rfc2047Decoder) (data : List Nat) (p : ContentTypeParser) (pos : Nat),
      p.state = ContentState.AttributeValue → pos < data.length →
      data.getD pos 0 = 10 → peek_next_is_space data (pos + 1) = true →
      contentTypeStep dec data p pos =
        StepRes.cont {(add_value p data) with
          state := ContentState.AttributeName, is_token_start := true} (pos + 2)) ∧
    parse_content_type decode_rfc2047_fail
        (strBytes "multipart/mixed; boundary=\"foo\n bar\"\n") =
      some (HeaderValue.ContentType
        { c_type := strBytes "multipart", c_subtype := some (strBytes "mixed"),
          attributes := some [(strBytes "boundary", strBytes "foo bar")] }) := by
  refine ⟨?_, ?_, ?_⟩
  · intro p data name hname hvals hrc htok hcont
    have h0 : ¬ (p.token_start = 0 ∧ p.values = []) := fun hc => absurd hc.1 (by omega)
    refine ⟨utf8_lossy ((sliceBytes data (p.token_start - 1) p.token_end).filter
      (fun ch => decide (¬ (ch = 13 ∨ ch = 10)))), ?_, ?_⟩
    · unfold add_value
      rw [hname]
      try dsimp only
      rw [if_neg h0, if_pos hcont]
      unfold value_text
      rw [if_pos htok]
      try dsimp only
      rw [if_pos hrc]
      unfold plain_concat resetTracking
      try dsimp only
      rw [hvals]
      try dsimp only
      rw [if_neg (by simp)]
    · intro b hb
      rcases utf8_lossy_mem _ b hb with h | h
      · have h2 := List.of_mem_filter h
        have h3 := of_decide_eq_true h2
        constructor
        · intro hb13
          exact h3 (Or.inl hb13)
        · intro hb10
          exact h3 (Or.inr hb10)
      · rcases h with h | h | h <;> subst h <;> exact ⟨by decide, by decide⟩
  · intro dec data p pos hst hpos hb hpk
    obtain ⟨st, stk, ct, cst, an, ac, ap2, vs, ats, co, ts, te, ic, ie, esc, rc, lc, its⟩ := p
    simp only at hst
    subst hst
    unfold contentTypeStep
    rw [if_pos hpos, hb]
    rw [if_neg (by decide), if_neg (by decide), if_pos rfl]
    unfold newline_step
    dsimp only
    unfold nl_finish
    rw [hpk]
    rw [if_pos rfl]
  · rfl

/-- Witness for C6's amended statement: finalizing a quoted folded value
with the flag set yields a CR/LF-free value. -/
theorem C6_witness :
    ∃ nv, (add_value {newContentTypeParser with
        attr_name := some (strBytes "n"), remove_crlf := true,
        token_start := 1, token_end := 3} [120, 10, 121]).attributes =
      [] ++ [(strBytes "n", nv)] ∧ ∀ b ∈ nv, b ≠ 13 ∧ b ≠ 10 :=
  C6_amended_remove_crlf_strips_span.1 {newContentTypeParser with
      attr_name := some (strBytes "n"), remove_crlf := true,
      token_start := 1, token_end := 3} [120, 10, 121] (strBytes "n")
    rfl rfl rfl (by decide) rfl

set_option maxHeartbeats 8000000 in
set_option maxRecDepth 8000 in
/-- C7: malformed continuation markers do not abort the parse: a third `*`
only discards the pending token (`star_step` reduces to `resetTracking` and
continues at the next character), and on a field mixing a triple-`*`
segment, an out-of-range position number and a stray `=` with no name with
a well-formed attribute, the well-formed attribute comes out exactly as in
the clean field (the filter conjunct exhibits it). -/
theorem C7_malformed_markers_do_not_abort :
    (∀ (data : List Nat) (p : ContentTypeParser) (pos : Nat),
      p.is_continuation = true → p.is_encoded_attribute = true →
      star_step data p pos = StepRes.cont (resetTracking p) (pos + 1)) ∧
    parse_content_type decode_rfc2047_fail
        (strBytes "a/b; q***=c; x*99999999999999999999=y; =bad; name=value\n") =
      some (HeaderValue.ContentType
        { c_type := strBytes "a", c_subtype := some (strBytes "b"),
          attributes := some [(strBytes "q", strBytes "c"), (strBytes "x", strBytes "y"),
            (strBytes "name", strBytes "value")] }) ∧
    parse_content_type decode_rfc2047_fail (strBytes "a/b; name=value\n") =
      some (HeaderValue.ContentType
        { c_type := strBytes "a", c_subtype := some (strBytes "b"),
          attributes := some [(strBytes "name", strBytes "value")] }) ∧
    ([(strBytes "q", strBytes "c"), (strBytes "x", strBytes "y"),
        (strBytes "name", strBytes "value")].filter
          (fun pr => decide (pr.1 = strBytes "name"))) =
      [(strBytes "name", strBytes "value")] := by
  refine ⟨?_, ?_, ?_, ?_⟩
  · intro data p pos h1 h2
    unfold star_step
    rw [if_neg (by simp [h1]), if_neg (by simp [h2])]
  · rfl
  · rfl
  · decide

/-- Witness for C7: the third-`*` reset applied at a concrete state. -/
theorem C7_witness :
    star_step [] {newContentTypeParser with
        is_continuation := true, is_encoded_attribute := true} 0 =
      StepRes.cont (resetTracking {newContentTypeParser with
        is_continuation := true, is_encoded_attribute := true}) 1 :=
  C7_malformed_markers_do_not_abort.1 [] {newContentTypeParser with
      is_continuation := true, is_encoded_attribute := true} 0 rfl rfl

/-- C8: the speculative RFC 2047 decode at a token-start `=` followed by
`?`: when the decoder collaborator reports no match, the step is exactly
the ordinary-literal-character step (`accumulate_token` at the same stream
position `pos + 1` with the same parser state — checkpoint/restore leaves
the attempt invisible); when it matches, the pending fragment is flushed,
the decoded text is pushed as a value fragment, and the `=` is not consumed
as a literal (the cursor advances past the decoded word instead). -/
theorem C8_speculative_decode_checkpoint (dec : Rfc2047Decoder) (data : List Nat)
    (p : ContentTypeParser) (pos : Nat)
    (hst : p.state = ContentState.AttributeValue ∨
      p.state = ContentState.AttributeQuotedValue)
    (hts : p.is_token_start = true)
    (hpk : peek_char data (pos + 1) 63 = true) :
    (pos < data.length → data.getD pos 0 = 61 →
      contentTypeStep dec data p pos = equals_step dec data p pos) ∧
    (dec data (pos + 1) = none →
      equals_step dec data p pos = StepRes.cont (accumulate_token p (pos + 1)) (pos + 1)) ∧
    (∀ token k, dec data (pos + 1) = some (token, k) →
      equals_step dec data p pos =
        StepRes.cont {(add_partial_value p data (pos + 1) false) with
          values := ((add_partial_value p data (pos + 1) false).values ++ [token])}
          (pos + 1 + k)) := by
  refine ⟨?_, ?_, ?_⟩
  · intro hlen h61
    unfold contentTypeStep
    rw [if_pos hlen, if_neg (by rw [h61]; simp), if_neg (by rw [h61]; simp),
      if_neg (by rw [h61]; simp), if_neg (by rw [h61]; simp), if_neg (by rw [h61]; simp),
      if_neg (by rw [h61]; simp), if_pos h61]
  · intro hdec
    unfold equals_step
    rcases hst with h | h <;> rw [h] <;> try dsimp only
    all_goals
      rw [if_pos ⟨hts, hpk⟩, hdec]
  · intro token k hdec
    unfold equals_step
    rcases hst with h | h <;> rw [h] <;> try dsimp only
    all_goals
      rw [if_pos ⟨hts, hpk⟩, hdec]

/-- Witness for C8: with the never-matching decoder, a token-start `=?` in
an attribute value is handled exactly as an ordinary character. -/
theorem C8_witness :
    equals_step decode_rfc2047_fail (strBytes "=?")
        {newContentTypeParser with state := ContentState.AttributeValue} 0 =
      StepRes.cont (accumulate_token
        {newContentTypeParser with state := ContentState.AttributeValue} 1) 1 :=
  (C8_speculative_decode_checkpoint decode_rfc2047_fail (strBytes "=?")
      {newContentTypeParser with state := ContentState.AttributeValue} 0
      (Or.inl rfl) rfl (by decide)).2.1 rfl

/-! ### Helper lemmas for runs of plain bytes (used by the C2 theorem) -/

theorem contentTypeLoop_cont (dec : Rfc2047Decoder) (data : List Nat) (f : Nat)
    (p : ContentTypeParser) (pos : Nat) (p' : ContentTypeParser) (pos' : Nat)
    (h : contentTypeStep dec data p pos = StepRes.cont p' pos') :
    contentTypeLoop dec data (f + 1) p pos = contentTypeLoop dec data f p' pos' := by
  simp only [contentTypeLoop, h]

theorem contentTypeLoop_done_eq (dec : Rfc2047Decoder) (data : List Nat) (f : Nat)
    (p : ContentTypeParser) (pos : Nat) (r : Option HeaderValue)
    (h : contentTypeStep dec data p pos = StepRes.done r) :
    contentTypeLoop dec data (f + 1) p pos = r := by
  simp only [contentTypeLoop, h]

theorem accumulate_token_is_escaped (p : ContentTypeParser) (offset : Nat) :
    (accumulate_token p offset).is_escaped = false := by
  unfold accumulate_token
  try dsimp only
  repeat' split
  all_goals simp_all

theorem accumulate_token_is_encoded (p : ContentTypeParser) (offset : Nat) :
    (accumulate_token p offset).is_encoded_attribute = p.is_encoded_attribute := by
  unfold accumulate_token
  try dsimp only
  repeat' split
  all_goals rfl

theorem upper_update_is_escaped (p : ContentTypeParser) (ch : Nat) :
    (upper_update p ch).is_escaped = p.is_escaped := by
  unfold upper_update
  repeat' split
  all_goals rfl

theorem upper_update_is_encoded (p : ContentTypeParser) (ch : Nat) :
    (upper_update p ch).is_encoded_attribute = p.is_encoded_attribute := by
  unfold upper_update
  repeat' split
  all_goals rfl

theorem lowerBytes_eq_self (l : List Nat) (h : l.any isUpperByte = false) :
    lowerBytes l = l := by
  unfold lowerBytes
  induction l with
  | nil => rfl
  | cons b r ih =>
    simp only [List.any_cons, Bool.or_eq_false_iff] at h
    simp only [List.map_cons]
    rw [ih h.2]
    unfold toLowerByte
    rw [if_neg (by simp [h.1])]

theorem sliceBytes_concat (pre r post : List Nat) :
    sliceBytes (pre ++ (r ++ post)) pre.length (pre.length + r.length) = r := by
  unfold sliceBytes
  rw [Nat.add_sub_cancel_left, List.drop_left pre (r ++ post), List.take_left r post]

theorem getD_concat (pre r post : List Nat) (i : Nat) (h : i < r.length) :
    (pre ++ (r ++ post)).getD (pre.length + i) 0 = r.getD i 0 := by
  rw [List.getD_append_right pre (r ++ post) 0 (pre.length + i) (by omega),
    Nat.add_sub_cancel_left,
    List.getD_append r post 0 i h]

theorem getD_concat_one (pre : List Nat) (b : Nat) (post : List Nat) :
    (pre ++ (b :: post)).getD pre.length 0 = b := by
  have := getD_concat pre [b] post 0 (by simp)
  simpa using this

/-- A plain byte in a token-accumulating state (no pending escape, no
encoded-attribute flag) always falls through to the shared accumulation
tail (with the uppercase-flag update). -/
theorem contentTypeStep_plain (dec : Rfc2047Decoder) (data : List Nat)
    (p : ContentTypeParser) (pos : Nat)
    (hpos : pos < data.length)
    (hb : PlainByte (data.getD pos 0))
    (hesc : p.is_escaped = false) (henc : p.is_encoded_attribute = false) :
    contentTypeStep dec data p pos =
      StepRes.cont (accumulate_token (upper_update p (data.getD pos 0)) (pos + 1))
        (pos + 1) := by
  obtain ⟨hlt, hmem⟩ := hb
  have hne : ∀ b, b ∈ ([9, 10, 13, 32, 34, 39, 40, 41, 42, 47, 59, 61, 92] : List Nat) →
      data.getD pos 0 ≠ b := fun b hbm h => hmem (by rw [h]; exact hbm)
  unfold contentTypeStep
  rw [if_pos hpos]
  rw [if_neg (by rintro (h | h); exacts [hne 32 (by decide) h, hne 9 (by decide) h])]
  by_cases hc2 : 65 ≤ data.getD pos 0 ∧ data.getD pos 0 ≤ 90
  · rw [if_pos hc2]
  · rw [if_neg hc2]
    rw [if_neg (hne 10 (by decide))]
    rw [if_neg (fun hc => hne 47 (by decide) hc.1)]
    rw [if_neg (hne 59 (by decide))]
    rw [if_neg (fun hc => hne 42 (by decide) hc.1)]
    rw [if_neg (hne 61 (by decide))]
    rw [if_neg (hne 34 (by decide))]
    rw [if_neg (hne 92 (by decide))]
    rw [if_neg (fun hc => hne 39 (by decide) hc.1)]
    rw [if_neg (fun hc => hne 40 (by decide) hc.1)]
    rw [if_neg (fun hc => hne 41 (by decide) hc.1)]
    rw [if_neg (hne 13 (by decide))]
    unfold upper_update
    rw [if_neg hc2]

/-- Running the loop across a run of plain bytes is `plain_run`. -/
theorem contentTypeLoop_plain_run (dec : Rfc2047Decoder) (data : List Nat) :
    ∀ (r : List Nat) (f : Nat) (p : ContentTypeParser) (pos : Nat),
      (∀ i, i < r.length → data.getD (pos + i) 0 = r.getD i 0) →
      pos + r.length ≤ data.length →
      (∀ b ∈ r, PlainByte b) →
      p.is_escaped = false → p.is_encoded_attribute = false →
      contentTypeLoop dec data (r.length + f) p pos =
        contentTypeLoop dec data f (plain_run p pos r) (pos + r.length) := by
  intro r
  induction r with
  | nil =>
    intro f p pos _ _ _ _ _
    simp [plain_run]
  | cons b rest ih =>
    intro f p pos hidx hbound hplain hesc henc
    have hb0 : data.getD pos 0 = b := by
      have := hidx 0 (by simp)
      simpa using this
    have hpos : pos < data.length := by
      have := hbound
      simp only [List.length_cons] at this
      omega
    have hstep := contentTypeStep_plain dec data p pos hpos
      (by rw [hb0]; exact hplain b (by simp)) hesc henc
    rw [hb0] at hstep
    have hfuel : (b :: rest).length + f = (rest.length + f) + 1 := by
      simp only [List.length_cons]
      omega
    rw [hfuel, contentTypeLoop_cont dec data (rest.length + f) p pos _ _ hstep]
    have hrec := ih f (accumulate_token (upper_update p b) (pos + 1)) (pos + 1)
      (fun i hi => by
        have := hidx (i + 1) (by simp only [List.length_cons]; omega)
        simp only [List.getD_cons_succ] at this
        rw [← this]
        congr 1
        omega)
      (by simp only [List.length_cons] at hbound; omega)
      (fun x hx => hplain x (by simp [hx]))
      (accumulate_token_is_escaped _ _)
      (by rw [accumulate_token_is_encoded, upper_update_is_encoded]; exact henc)
    rw [hrec]
    have : pos + 1 + rest.length = pos + (b :: rest).length := by
      simp only [List.length_cons]
      omega
    rw [this]
    rfl

theorem isUpperByte_iff (b : Nat) : isUpperByte b = true ↔ (65 ≤ b ∧ b ≤ 90) := by
  unfold isUpperByte
  simp

theorem lc_after_nil (st : ContentState) (lc : Bool) : lc_after st lc [] = lc := by
  unfold lc_after
  split <;> simp

theorem lc_after_cons_general (st : ContentState) (lc : Bool) (b : Nat) (r : List Nat) :
    lc_after st
      (if 65 ≤ b ∧ b ≤ 90 then
        (if lc = true ∧ (st = ContentState.Type_ ∨ st = ContentState.SubType ∨
            st = ContentState.AttributeName) then false else lc)
      else lc) r = lc_after st lc (b :: r) := by
  unfold lc_after
  by_cases hn : (st = ContentState.Type_ ∨ st = ContentState.SubType ∨
      st = ContentState.AttributeName)
  · rw [if_pos hn, if_pos hn]
    by_cases hu : 65 ≤ b ∧ b ≤ 90
    · rw [if_pos hu]
      have hub : isUpperByte b = true := (isUpperByte_iff b).mpr hu
      by_cases hl : lc = true ∧ (st = ContentState.Type_ ∨ st = ContentState.SubType ∨
          st = ContentState.AttributeName)
      · rw [if_pos hl]
        simp [List.any_cons, hub, hl.1]
      · rw [if_neg hl]
        have hlf : lc = false := by
          cases hlc : lc
          · rfl
          · exact absurd ⟨hlc, hn⟩ hl
        simp [hlf]
    · rw [if_neg hu]
      have hub : isUpperByte b = false := by
        cases hub2 : isUpperByte b
        · rfl
        · exact absurd ((isUpperByte_iff b).mp hub2) hu
      simp [List.any_cons, hub]
  · rw [if_neg hn, if_neg hn]
    by_cases hu : 65 ≤ b ∧ b ≤ 90
    · rw [if_pos hu]
      rw [if_neg (fun hc => hn hc.2)]
    · rw [if_neg hu]

theorem upper_update_mk (st : ContentState) (stk : List ContentState)
    (ct cst an ac : Option (List Nat)) (ap : Nat) (vs : List (List Nat))
    (ats : List (List Nat × List Nat)) (co : Option (List Continuation))
    (ts te : Nat) (ic ie esc rc lc its : Bool) (b : Nat) :
    upper_update ⟨st, stk, ct, cst, an, ac, ap, vs, ats, co, ts, te, ic, ie, esc, rc, lc, its⟩ b =
      ⟨st, stk, ct, cst, an, ac, ap, vs, ats, co, ts, te, ic, ie, esc, rc,
        (if 65 ≤ b ∧ b ≤ 90 then
          (if lc = true ∧ (st = ContentState.Type_ ∨ st = ContentState.SubType ∨
              st = ContentState.AttributeName) then false else lc)
        else lc), its⟩ := by
  unfold upper_update
  dsimp only
  by_cases hu : 65 ≤ b ∧ b ≤ 90
  · rw [if_pos hu, if_pos hu]
    by_cases hl : lc = true ∧ (st = ContentState.Type_ ∨ st = ContentState.SubType ∨
        st = ContentState.AttributeName)
    · rw [if_pos hl, if_pos hl]
    · rw [if_neg hl, if_neg hl]
  · rw [if_neg hu, if_neg hu]

theorem accumulate_token_mk_aux (st : ContentState) (stk : List ContentState)
    (ct cst an ac : Option (List Nat)) (ap : Nat) (vs : List (List Nat))
    (ats : List (List Nat × List Nat)) (co : Option (List Continuation))
    (k te : Nat) (ic ie rc lc : Bool) (off : Nat) :
    accumulate_token ⟨st, stk, ct, cst, an, ac, ap, vs, ats, co, k + 1, te, ic, ie, false, rc, lc, false⟩ off =
      ⟨st, stk, ct, cst, an, ac, ap, vs, ats, co, k + 1, off, ic, ie, false, rc, lc, false⟩ := by
  unfold accumulate_token
  dsimp only
  rw [if_neg (show ¬(false = true) by simp), if_neg (show ¬(false = true) by simp),
    if_neg (Nat.succ_ne_zero k)]

theorem accumulate_token_mk_fresh (st : ContentState) (stk : List ContentState)
    (ct cst an ac : Option (List Nat)) (ap : Nat) (vs : List (List Nat))
    (ats : List (List Nat × List Nat)) (co : Option (List Continuation))
    (te : Nat) (ic ie rc lc its : Bool) (off : Nat) :
    accumulate_token ⟨st, stk, ct, cst, an, ac, ap, vs, ats, co, 0, te, ic, ie, false, rc, lc, its⟩ off =
      ⟨st, stk, ct, cst, an, ac, ap, vs, ats, co, off, off, ic, ie, false, rc, lc, false⟩ := by
  unfold accumulate_token
  dsimp only
  cases its
  · rw [if_neg (show ¬(false = true) by simp), if_neg (show ¬(false = true) by simp),
      if_pos rfl]
  · rw [if_neg (show ¬(false = true) by simp), if_pos rfl, if_pos rfl]

theorem plain_run_closed_aux (r : List Nat) : r ≠ [] →
    ∀ (st : ContentState) (stk : List ContentState) (ct cst an ac : Option (List Nat))
      (ap : Nat) (vs : List (List Nat)) (ats : List (List Nat × List Nat))
      (co : Option (List Continuation)) (k te : Nat) (ic ie rc lc : Bool) (pos : Nat),
      plain_run ⟨st, stk, ct, cst, an, ac, ap, vs, ats, co, k + 1, te, ic, ie, false, rc, lc, false⟩ pos r =
        ⟨st, stk, ct, cst, an, ac, ap, vs, ats, co, k + 1, pos + r.length, ic, ie, false, rc,
          lc_after st lc r, false⟩ := by
  induction r with
  | nil => intro h; exact absurd rfl h
  | cons b rest ih =>
    intro _ st stk ct cst an ac ap vs ats co k te ic ie rc lc pos
    simp only [plain_run]
    rw [upper_update_mk, accumulate_token_mk_aux]
    cases rest with
    | nil =>
      simp only [plain_run]
      rw [(lc_after_nil st _).symm.trans (lc_after_cons_general st lc b [])]
      rfl
    | cons c rest2 =>
      rw [ih (List.cons_ne_nil c rest2)]
      rw [lc_after_cons_general st lc b (c :: rest2)]
      simp only [ContentTypeParser.mk.injEq, List.length_cons, and_true, true_and]
      omega

theorem plain_run_fresh (b : Nat) (rest : List Nat) :
    ∀ (st : ContentState) (stk : List ContentState) (ct cst an ac : Option (List Nat))
      (ap : Nat) (vs : List (List Nat)) (ats : List (List Nat × List Nat))
      (co : Option (List Continuation)) (te : Nat) (ic ie rc lc its : Bool) (pos : Nat),
      plain_run ⟨st, stk, ct, cst, an, ac, ap, vs, ats, co, 0, te, ic, ie, false, rc, lc, its⟩ pos (b :: rest) =
        ⟨st, stk, ct, cst, an, ac, ap, vs, ats, co, pos + 1, pos + (b :: rest).length, ic, ie, false, rc,
          lc_after st lc (b :: rest), false⟩ := by
  intro st stk ct cst an ac ap vs ats co te ic ie rc lc its pos
  simp only [plain_run]
  rw [upper_update_mk, accumulate_token_mk_fresh]
  cases rest with
  | nil =>
    simp only [plain_run]
    rw [(lc_after_nil st _).symm.trans (lc_after_cons_general st lc b [])]
    rfl
  | cons c rest2 =>
    rw [plain_run_closed_aux (c :: rest2) (List.cons_ne_nil c rest2)]
    rw [lc_after_cons_general st lc b (c :: rest2)]
    simp only [ContentTypeParser.mk.injEq, List.length_cons, and_true, true_and]
    omega

theorem plain_run_fresh_ne (r : List Nat) (hne : r ≠ []) (st : ContentState)
    (stk : List ContentState) (ct cst an ac : Option (List Nat)) (ap : Nat)
    (vs : List (List Nat)) (ats : List (List Nat × List Nat))
    (co : Option (List Continuation)) (te : Nat) (ic ie rc lc its : Bool) (pos : Nat) :
    plain_run ⟨st, stk, ct, cst, an, ac, ap, vs, ats, co, 0, te, ic, ie, false, rc, lc, its⟩ pos r =
      ⟨st, stk, ct, cst, an, ac, ap, vs, ats, co, pos + 1, pos + r.length, ic, ie, false, rc,
        lc_after st lc r, false⟩ := by
  cases r with
  | nil => exact absurd rfl hne
  | cons b rest => exact plain_run_fresh b rest st stk ct cst an ac ap vs ats co te ic ie rc lc its pos

theorem lc_attr_eq (st : ContentState)
    (hst : st = ContentState.Type_ ∨ st = ContentState.SubType ∨
      st = ContentState.AttributeName) (r : List Nat)
    (hascii : ∀ b ∈ r, b < 128) :
    (if lc_after st true r = true then utf8_lossy r else lowerBytes (utf8_lossy r)) =
      lowerBytes r := by
  rw [utf8_lossy_ascii r hascii]
  unfold lc_after
  rw [if_pos hst]
  cases hu : r.any isUpperByte
  · rw [if_pos (by simp [hu])]
    exact (lowerBytes_eq_self r hu).symm
  · rw [if_neg (by simp [hu])]

theorem add_attribute_mk_type (data : List Nat) (stk : List ContentState)
    (ct cst an ac : Option (List Nat)) (ap : Nat) (vs : List (List Nat))
    (ats : List (List Nat × List Nat)) (co : Option (List Continuation))
    (ts te : Nat) (ic ie esc rc lc its : Bool) (hts : ts ≠ 0) :
    add_attribute ⟨ContentState.Type_, stk, ct, cst, an, ac, ap, vs, ats, co, ts, te, ic, ie, esc, rc, lc, its⟩ data =
      (⟨ContentState.Type_, stk,
        some (if lc = true then utf8_lossy (sliceBytes data (ts - 1) te)
          else lowerBytes (utf8_lossy (sliceBytes data (ts - 1) te))),
        cst, an, ac, ap, vs, ats, co, 0, te, ic, ie, esc, rc, true, true⟩, true) := by
  unfold add_attribute resetTracking
  dsimp only
  rw [if_pos (Nat.pos_of_ne_zero hts)]

theorem add_attribute_mk_subtype (data : List Nat) (stk : List ContentState)
    (ct cst an ac : Option (List Nat)) (ap : Nat) (vs : List (List Nat))
    (ats : List (List Nat × List Nat)) (co : Option (List Continuation))
    (ts te : Nat) (ic ie esc rc lc its : Bool) (hts : ts ≠ 0) :
    add_attribute ⟨ContentState.SubType, stk, ct, cst, an, ac, ap, vs, ats, co, ts, te, ic, ie, esc, rc, lc, its⟩ data =
      (⟨ContentState.SubType, stk, ct,
        some (if lc = true then utf8_lossy (sliceBytes data (ts - 1) te)
          else lowerBytes (utf8_lossy (sliceBytes data (ts - 1) te))),
        an, ac, ap, vs, ats, co, 0, te, ic, ie, esc, rc, true, true⟩, true) := by
  unfold add_attribute resetTracking
  dsimp only
  rw [if_pos (Nat.pos_of_ne_zero hts)]

theorem add_attribute_mk_attrname (data : List Nat) (stk : List ContentState)
    (ct cst an ac : Option (List Nat)) (ap : Nat) (vs : List (List Nat))
    (ats : List (List Nat × List Nat)) (co : Option (List Continuation))
    (ts te : Nat) (ic ie esc rc lc its : Bool) (hts : ts ≠ 0) :
    add_attribute ⟨ContentState.AttributeName, stk, ct, cst, an, ac, ap, vs, ats, co, ts, te, ic, ie, esc, rc, lc, its⟩ data =
      (⟨ContentState.AttributeName, stk, ct, cst,
        some (if lc = true then utf8_lossy (sliceBytes data (ts - 1) te)
          else lowerBytes (utf8_lossy (sliceBytes data (ts - 1) te))),
        ac, ap, vs, ats, co, 0, te, ic, ie, esc, rc, true, true⟩, true) := by
  unfold add_attribute resetTracking
  dsimp only
  rw [if_pos (Nat.pos_of_ne_zero hts)]

theorem add_value_mk_plain (data : List Nat) (st : ContentState)
    (stk : List ContentState) (ct cst : Option (List Nat)) (name : List Nat)
    (ac : Option (List Nat)) (ap : Nat) (ats : List (List Nat × List Nat))
    (co : Option (List Continuation)) (ts te : Nat) (ie esc lc its : Bool)
    (hts : ts ≠ 0) :
    add_value ⟨st, stk, ct, cst, some name, ac, ap, [], ats, co, ts, te, false, ie, esc, false, lc, its⟩ data =
      ⟨st, stk, ct, cst, none, ac, ap, [],
        ats ++ [(name, utf8_lossy (sliceBytes data (ts - 1) te))], co,
        0, te, false, ie, esc, false, lc, true⟩ := by
  unfold add_value value_text plain_concat resetTracking
  dsimp only
  rw [if_neg (fun h => hts h.1)]
  rw [if_pos (Nat.pos_of_ne_zero hts), if_pos (Nat.pos_of_ne_zero hts)]
  rw [if_neg (show ¬(false = true) by decide)]
  rw [if_pos rfl]
  dsimp only
  rw [if_neg (show ¬(([] : List (List Nat)) ≠ []) from fun h => h rfl)]

set_option maxHeartbeats 4000000 in
theorem parse_simple_field (dec : Rfc2047Decoder) (data t s a v : List Nat)
    (hdata : data = t ++ [47] ++ s ++ [59, 32] ++ a ++ [61] ++ v ++ [10])
    (ht : t ≠ []) (hs : s ≠ []) (ha : a ≠ []) (hv : v ≠ [])
    (hpt : ∀ b ∈ t, PlainByte b) (hps : ∀ b ∈ s, PlainByte b)
    (hpa : ∀ b ∈ a, PlainByte b) (hpv : ∀ b ∈ v, PlainByte b)
    (hat : ∀ b ∈ t, b < 128) (has : ∀ b ∈ s, b < 128)
    (haa : ∀ b ∈ a, b < 128) (hav : ∀ b ∈ v, b < 128) :
    parse_content_type dec data =
      some (HeaderValue.ContentType
        { c_type := lowerBytes t, c_subtype := some (lowerBytes s),
          attributes := some [(lowerBytes a, v)] }) := by
  have hd1 : data = t ++ (47 :: (s ++ (59 :: (32 :: (a ++ (61 :: (v ++ [10]))))))) := by
    rw [hdata]; simp
  have hd2 : data = (t ++ [47]) ++ (s ++ (59 :: (32 :: (a ++ (61 :: (v ++ [10])))))) := by
    rw [hdata]; simp
  have hd3 : data = ((t ++ [47]) ++ s) ++ (59 :: (32 :: (a ++ (61 :: (v ++ [10]))))) := by
    rw [hdata]; simp
  have hd4 : data = (((t ++ [47]) ++ s) ++ [59]) ++ (32 :: (a ++ (61 :: (v ++ [10])))) := by
    rw [hdata]; simp
  have hd5 : data = ((((t ++ [47]) ++ s) ++ [59]) ++ [32]) ++ (a ++ (61 :: (v ++ [10]))) := by
    rw [hdata]; simp
  have hd6 : data = (((((t ++ [47]) ++ s) ++ [59]) ++ [32]) ++ a) ++ (61 :: (v ++ [10])) := by
    rw [hdata]; simp
  have hd7 : data = ((((((t ++ [47]) ++ s) ++ [59]) ++ [32]) ++ a) ++ [61]) ++ (v ++ [10]) := by
    rw [hdata]; simp
  have hd8 : data = (((((((t ++ [47]) ++ s) ++ [59]) ++ [32]) ++ a) ++ [61]) ++ v) ++ (10 :: []) := by
    rw [hdata]; simp
  have hlen : data.length = t.length + s.length + a.length + v.length + 5 := by
    rw [hdata]
    simp only [List.length_append, List.length_cons, List.length_nil]
    omega
  have hl2 : (t ++ [47]).length = t.length + 1 := by
    simp only [List.length_append, List.length_cons, List.length_nil]
  have hl3 : ((t ++ [47]) ++ s).length = t.length + 1 + s.length := by
    simp only [List.length_append, List.length_cons, List.length_nil]
  have hl4 : ((((t ++ [47]) ++ s) ++ [59])).length = t.length + 1 + s.length + 1 := by
    simp only [List.length_append, List.length_cons, List.length_nil]
  have hl5 : (((((t ++ [47]) ++ s) ++ [59]) ++ [32])).length = t.length + 1 + s.length + 1 + 1 := by
    simp only [List.length_append, List.length_cons, List.length_nil]
  have hl6 : ((((((t ++ [47]) ++ s) ++ [59]) ++ [32]) ++ a)).length =
      t.length + 1 + s.length + 1 + 1 + a.length := by
    simp only [List.length_append, List.length_cons, List.length_nil]
  have hl7 : (((((((t ++ [47]) ++ s) ++ [59]) ++ [32]) ++ a) ++ [61])).length =
      t.length + 1 + s.length + 1 + 1 + a.length + 1 := by
    simp only [List.length_append, List.length_cons, List.length_nil]
  have hl8 : ((((((((t ++ [47]) ++ s) ++ [59]) ++ [32]) ++ a) ++ [61]) ++ v)).length =
      t.length + 1 + s.length + 1 + 1 + a.length + 1 + v.length := by
    simp only [List.length_append, List.length_cons, List.length_nil]
  have hg47 : data.getD t.length 0 = 47 := by
    rw [hd1]
    exact getD_concat_one t 47 (s ++ (59 :: (32 :: (a ++ (61 :: (v ++ [10]))))))
  have hg59 : data.getD (t.length + 1 + s.length) 0 = 59 := by
    rw [hd3]
    have h := getD_concat_one ((t ++ [47]) ++ s) 59 (32 :: (a ++ (61 :: (v ++ [10]))))
    rwa [hl3] at h
  have hg32 : data.getD (t.length + 1 + s.length + 1) 0 = 32 := by
    rw [hd4]
    have h := getD_concat_one (((t ++ [47]) ++ s) ++ [59]) 32 (a ++ (61 :: (v ++ [10])))
    rwa [hl4] at h
  have hg61 : data.getD (t.length + 1 + s.length + 1 + 1 + a.length) 0 = 61 := by
    rw [hd6]
    have h := getD_concat_one (((((t ++ [47]) ++ s) ++ [59]) ++ [32]) ++ a) 61 (v ++ [10])
    rwa [hl6] at h
  have hg10 : data.getD (t.length + 1 + s.length + 1 + 1 + a.length + 1 + v.length) 0 = 10 := by
    rw [hd8]
    have h := getD_concat_one ((((((t ++ [47]) ++ s) ++ [59]) ++ [32]) ++ a) ++ [61] ++ v) 10 []
    rwa [hl8] at h
  have hsliceT : sliceBytes data (1 - 1) t.length = t := by
    show sliceBytes data 0 t.length = t
    unfold sliceBytes
    rw [Nat.sub_zero, List.drop_zero, hd1]
    exact List.take_left t (47 :: (s ++ (59 :: (32 :: (a ++ (61 :: (v ++ [10])))))))
  have hsliceS : sliceBytes data (t.length + 1 + 1 - 1) (t.length + 1 + s.length) = s := by
    rw [Nat.add_sub_cancel, hd2]
    have h := sliceBytes_concat (t ++ [47]) s (59 :: (32 :: (a ++ (61 :: (v ++ [10])))))
    rwa [hl2] at h
  have hsliceA : sliceBytes data (t.length + 1 + s.length + 1 + 1 + 1 - 1)
      (t.length + 1 + s.length + 1 + 1 + a.length) = a := by
    rw [Nat.add_sub_cancel, hd5]
    have h := sliceBytes_concat ((((t ++ [47]) ++ s) ++ [59]) ++ [32]) a (61 :: (v ++ [10]))
    rwa [hl5] at h
  have hsliceV : sliceBytes data (t.length + 1 + s.length + 1 + 1 + a.length + 1 + 1 - 1)
      (t.length + 1 + s.length + 1 + 1 + a.length + 1 + v.length) = v := by
    rw [Nat.add_sub_cancel, hd7]
    have h := sliceBytes_concat (((((t ++ [47]) ++ s) ++ [59]) ++ [32]) ++ a ++ [61]) v [10]
    rwa [hl7] at h
  have hidxT : ∀ i, i < t.length → data.getD (0 + i) 0 = t.getD i 0 := by
    intro i hi
    rw [Nat.zero_add, hd1]
    exact List.getD_append t (47 :: (s ++ (59 :: (32 :: (a ++ (61 :: (v ++ [10]))))))) 0 i hi
  have hidxS : ∀ i, i < s.length → data.getD (t.length + 1 + i) 0 = s.getD i 0 := by
    intro i hi
    rw [hd2]
    have h := getD_concat (t ++ [47]) s (59 :: (32 :: (a ++ (61 :: (v ++ [10]))))) i hi
    rwa [hl2] at h
  have hidxA : ∀ i, i < a.length →
      data.getD (t.length + 1 + s.length + 1 + 1 + i) 0 = a.getD i 0 := by
    intro i hi
    rw [hd5]
    have h := getD_concat ((((t ++ [47]) ++ s) ++ [59]) ++ [32]) a (61 :: (v ++ [10])) i hi
    rwa [hl5] at h
  have hidxV : ∀ i, i < v.length →
      data.getD (t.length + 1 + s.length + 1 + 1 + a.length + 1 + i) 0 = v.getD i 0 := by
    intro i hi
    rw [hd7]
    have h := getD_concat (((((t ++ [47]) ++ s) ++ [59]) ++ [32]) ++ a ++ [61]) v [10] i hi
    rwa [hl7] at h
  have hbT : 0 + t.length ≤ data.length := by omega
  have hbS : t.length + 1 + s.length ≤ data.length := by omega
  have hbA : t.length + 1 + s.length + 1 + 1 + a.length ≤ data.length := by omega
  have hbV : t.length + 1 + s.length + 1 + 1 + a.length + 1 + v.length ≤ data.length := by omega
  have hp1 : t.length < data.length := by omega
  have hp3 : t.length + 1 + s.length < data.length := by omega
  have hp4 : t.length + 1 + s.length + 1 < data.length := by omega
  have hp6 : t.length + 1 + s.length + 1 + 1 + a.length < data.length := by omega
  have hp8 : t.length + 1 + s.length + 1 + 1 + a.length + 1 + v.length < data.length := by omega
  have hpeek : peek_next_is_space data
      (t.length + 1 + s.length + 1 + 1 + a.length + 1 + v.length + 1) = false := by
    unfold peek_next_is_space
    rw [decide_eq_false
      (by omega : ¬(t.length + 1 + s.length + 1 + 1 + a.length + 1 + v.length + 1 < data.length))]
    rw [Bool.false_and]
  have hstep2 : contentTypeStep dec data
      ⟨ContentState.Type_, [], none, none, none, none, 0, [], [], none, 1, t.length,
        false, false, false, false, lc_after ContentState.Type_ true t, false⟩ t.length =
    StepRes.cont
      ⟨ContentState.SubType, [], some (lowerBytes t), none, none, none, 0, [], [], none, 0,
        t.length, false, false, false, false, true, true⟩ (t.length + 1) := by
    unfold contentTypeStep
    rw [if_pos hp1, hg47]
    rw [if_neg (by decide), if_neg (by decide), if_neg (by decide), if_pos ⟨rfl, rfl⟩]
    rw [add_attribute_mk_type data [] none none none none 0 [] [] none 1 t.length
      false false false false (lc_after ContentState.Type_ true t) false (by decide)]
    rw [hsliceT, lc_attr_eq ContentState.Type_ (Or.inl rfl) t hat]
  have hstep3 : contentTypeStep dec data
      ⟨ContentState.SubType, [], some (lowerBytes t), none, none, none, 0, [], [], none,
        t.length + 1 + 1, t.length + 1 + s.length, false, false, false, false,
        lc_after ContentState.SubType true s, false⟩ (t.length + 1 + s.length) =
    StepRes.cont
      ⟨ContentState.AttributeName, [], some (lowerBytes t), some (lowerBytes s), none, none,
        0, [], [], none, 0, t.length + 1 + s.length, false, false, false, false, true, true⟩
      (t.length + 1 + s.length + 1) := by
    unfold contentTypeStep
    rw [if_pos hp3, hg59]
    rw [if_neg (by decide), if_neg (by decide), if_neg (by decide),
      if_neg (fun h => absurd h.1 (by decide)), if_pos rfl]
    unfold semicolon_step
    dsimp only
    rw [add_attribute_mk_subtype data [] (some (lowerBytes t)) none none none 0 [] [] none
      (t.length + 1 + 1) (t.length + 1 + s.length) false false false false
      (lc_after ContentState.SubType true s) false (by omega)]
    rw [hsliceS, lc_attr_eq ContentState.SubType (Or.inr (Or.inl rfl)) s has]
  have hstep4 : contentTypeStep dec data
      ⟨ContentState.AttributeName, [], some (lowerBytes t), some (lowerBytes s), none, none,
        0, [], [], none, 0, t.length + 1 + s.length, false, false, false, false, true, true⟩
      (t.length + 1 + s.length + 1) =
    StepRes.cont
      ⟨ContentState.AttributeName, [], some (lowerBytes t), some (lowerBytes s), none, none,
        0, [], [], none, 0, t.length + 1 + s.length, false, false, false, false, true, true⟩
      (t.length + 1 + s.length + 1 + 1) := by
    unfold contentTypeStep
    rw [if_pos hp4, hg32, if_pos (Or.inl rfl)]
    unfold whitespace_step
    dsimp only
    rw [if_neg (by decide : ¬(ContentState.AttributeName = ContentState.AttributeQuotedValue))]
  have hstep6 : contentTypeStep dec data
      ⟨ContentState.AttributeName, [], some (lowerBytes t), some (lowerBytes s), none, none,
        0, [], [], none, t.length + 1 + s.length + 1 + 1 + 1,
        t.length + 1 + s.length + 1 + 1 + a.length, false, false, false, false,
        lc_after ContentState.AttributeName true a, false⟩
      (t.length + 1 + s.length + 1 + 1 + a.length) =
    StepRes.cont
      ⟨ContentState.AttributeValue, [], some (lowerBytes t), some (lowerBytes s),
        some (lowerBytes a), none, 0, [], [], none, 0,
        t.length + 1 + s.length + 1 + 1 + a.length, false, false, false, false, true, true⟩
      (t.length + 1 + s.length + 1 + 1 + a.length + 1) := by
    unfold contentTypeStep
    rw [if_pos hp6, hg61]
    rw [if_neg (by decide), if_neg (by decide), if_neg (by decide),
      if_neg (fun h => absurd h.1 (by decide)), if_neg (by decide),
      if_neg (fun h => absurd h.1 (by decide)), if_pos rfl]
    unfold equals_step
    dsimp only
    rw [if_pos rfl]
    rw [add_attribute_mk_attrname data [] (some (lowerBytes t)) (some (lowerBytes s)) none
      none 0 [] [] none (t.length + 1 + s.length + 1 + 1 + 1)
      (t.length + 1 + s.length + 1 + 1 + a.length) false false false false
      (lc_after ContentState.AttributeName true a) false (by omega)]
    dsimp only
    rw [if_neg (show ¬(true = false) by decide)]
    rw [hsliceA, lc_attr_eq ContentState.AttributeName (Or.inr (Or.inr rfl)) a haa]
  have hstep8 : contentTypeStep dec data
      ⟨ContentState.AttributeValue, [], some (lowerBytes t), some (lowerBytes s),
        some (lowerBytes a), none, 0, [], [], none,
        t.length + 1 + s.length + 1 + 1 + a.length + 1 + 1,
        t.length + 1 + s.length + 1 + 1 + a.length + 1 + v.length, false, false, false,
        false, lc_after ContentState.AttributeValue true v, false⟩
      (t.length + 1 + s.length + 1 + 1 + a.length + 1 + v.length) =
    StepRes.done (some (HeaderValue.ContentType
      { c_type := lowerBytes t, c_subtype := some (lowerBytes s),
        attributes := some [(lowerBytes a, v)] })) := by
    unfold contentTypeStep
    rw [if_pos hp8, hg10]
    rw [if_neg (by decide), if_neg (by decide), if_pos rfl]
    unfold newline_step
    dsimp only
    rw [add_value_mk_plain data ContentState.AttributeValue [] (some (lowerBytes t))
      (some (lowerBytes s)) (lowerBytes a) none 0 [] none
      (t.length + 1 + s.length + 1 + 1 + a.length + 1 + 1)
      (t.length + 1 + s.length + 1 + 1 + a.length + 1 + v.length) false false
      (lc_after ContentState.AttributeValue true v) false (by omega)]
    rw [hsliceV, utf8_lossy_ascii v hav, hpeek]
    unfold nl_finish
    rw [if_neg (show ¬(false = true) by decide)]
    rw [if_neg (show ¬((none : Option (List Continuation)).isSome = true) by decide)]
    unfold finish_content_type
    dsimp only
    rw [if_pos (show ([] : List (List Nat × List Nat)) ++ [(lowerBytes a, v)] ≠ [] by simp)]
    rfl
  unfold parse_content_type
  rw [show data.length + 1 =
    t.length + (1 + (s.length + (1 + (1 + (a.length + (1 + (v.length + 2))))))) by omega]
  rw [show newContentTypeParser =
    ⟨ContentState.Type_, [], none, none, none, none, 0, [], [], none, 0, 0,
      false, false, false, false, true, true⟩ from rfl]
  rw [contentTypeLoop_plain_run dec data t
    (1 + (s.length + (1 + (1 + (a.length + (1 + (v.length + 2)))))))
    ⟨ContentState.Type_, [], none, none, none, none, 0, [], [], none, 0, 0,
      false, false, false, false, true, true⟩ 0 hidxT hbT hpt rfl rfl]
  rw [plain_run_fresh_ne t ht ContentState.Type_ [] none none none none 0 [] [] none 0
    false false false true true 0]
  simp only [Nat.zero_add]
  rw [Nat.add_comm 1 (s.length + (1 + (1 + (a.length + (1 + (v.length + 2))))))]
  rw [contentTypeLoop_cont dec data (s.length + (1 + (1 + (a.length + (1 + (v.length + 2))))))
    _ _ _ _ hstep2]
  rw [contentTypeLoop_plain_run dec data s (1 + (1 + (a.length + (1 + (v.length + 2)))))
    ⟨ContentState.SubType, [], some (lowerBytes t), none, none, none, 0, [], [], none, 0,
      t.length, false, false, false, false, true, true⟩ (t.length + 1) hidxS hbS hps rfl rfl]
  rw [plain_run_fresh_ne s hs ContentState.SubType [] (some (lowerBytes t)) none none none 0
    [] [] none t.length false false false true true (t.length + 1)]
  rw [Nat.add_comm 1 (1 + (a.length + (1 + (v.length + 2))))]
  rw [contentTypeLoop_cont dec data (1 + (a.length + (1 + (v.length + 2)))) _ _ _ _ hstep3]
  rw [Nat.add_comm 1 (a.length + (1 + (v.length + 2)))]
  rw [contentTypeLoop_cont dec data (a.length + (1 + (v.length + 2))) _ _ _ _ hstep4]
  rw [contentTypeLoop_plain_run dec data a (1 + (v.length + 2))
    ⟨ContentState.AttributeName, [], some (lowerBytes t), some (lowerBytes s), none, none,
      0, [], [], none, 0, t.length + 1 + s.length, false, false, false, false, true, true⟩
    (t.length + 1 + s.length + 1 + 1) hidxA hbA hpa rfl rfl]
  rw [plain_run_fresh_ne a ha ContentState.AttributeName [] (some (lowerBytes t))
    (some (lowerBytes s)) none none 0 [] [] none (t.length + 1 + s.length)
    false false false true true (t.length + 1 + s.length + 1 + 1)]
  rw [Nat.add_comm 1 (v.length + 2)]
  rw [contentTypeLoop_cont dec data (v.length + 2) _ _ _ _ hstep6]
  rw [contentTypeLoop_plain_run dec data v 2
    ⟨ContentState.AttributeValue, [], some (lowerBytes t), some (lowerBytes s),
      some (lowerBytes a), none, 0, [], [], none, 0,
      t.length + 1 + s.length + 1 + 1 + a.length, false, false, false, false, true, true⟩
    (t.length + 1 + s.length + 1 + 1 + a.length + 1) hidxV hbV hpv rfl rfl]
  rw [plain_run_fresh_ne v hv ContentState.AttributeValue [] (some (lowerBytes t))
    (some (lowerBytes s)) (some (lowerBytes a)) none 0 [] [] none
    (t.length + 1 + s.length + 1 + 1 + a.length)
    false false false true true (t.length + 1 + s.length + 1 + 1 + a.length + 1)]
  rw [show (2 : Nat) = 1 + 1 from rfl]
  rw [contentTypeLoop_done_eq dec data 1 _ _ _ hstep8]

set_option maxHeartbeats 8000000 in
set_option maxRecDepth 8000 in
/-- C2: for every well-formed field `type/subtype; attr=value` terminated by a
newline, with nonempty tokens of ordinary ASCII bytes (printable, not one of
the special or whitespace characters — the tokens a well-formed Content-Type
field is made of), the returned type, subtype and attribute name equal the
input tokens converted to ASCII lowercase while the attribute value keeps its
original case; and the spec's example `"TEXT/Plain; Charset=us-ascii\n"`
yields type `text`, subtype `plain` and the single attribute `charset` =
`us-ascii`. -/
theorem C2_tokens_lowercased_values_preserved (dec : Rfc2047Decoder)
    (t s a v : List Nat) (ht : t ≠ []) (hs : s ≠ []) (ha : a ≠ []) (hv : v ≠ [])
    (hpt : ∀ b ∈ t, PlainByte b) (hps : ∀ b ∈ s, PlainByte b)
    (hpa : ∀ b ∈ a, PlainByte b) (hpv : ∀ b ∈ v, PlainByte b)
    (hat : ∀ b ∈ t, b < 128) (hbs : ∀ b ∈ s, b < 128)
    (hba : ∀ b ∈ a, b < 128) (hbv : ∀ b ∈ v, b < 128) :
    parse_content_type dec (t ++ [47] ++ s ++ [59, 32] ++ a ++ [61] ++ v ++ [10]) =
      some (HeaderValue.ContentType
        { c_type := lowerBytes t, c_subtype := some (lowerBytes s),
          attributes := some [(lowerBytes a, v)] }) ∧
    parse_content_type dec (strBytes "TEXT/Plain; Charset=us-ascii\n") =
      some (HeaderValue.ContentType
        { c_type := strBytes "text", c_subtype := some (strBytes "plain"),
          attributes := some [(strBytes "charset", strBytes "us-ascii")] }) :=
  ⟨parse_simple_field dec _ t s a v rfl ht hs ha hv hpt hps hpa hpv hat hbs hba hbv, by rfl⟩

theorem C2_witness :
    (parse_content_type decode_rfc2047_fail
        (strBytes "TEXT" ++ [47] ++ strBytes "Plain" ++ [59, 32] ++
          strBytes "Charset" ++ [61] ++ strBytes "us-ascii" ++ [10]) =
      some (HeaderValue.ContentType
        { c_type := lowerBytes (strBytes "TEXT"),
          c_subtype := some (lowerBytes (strBytes "Plain")),
          attributes := some [(lowerBytes (strBytes "Charset"), strBytes "us-ascii")] })) ∧
    parse_content_type decode_rfc2047_fail (strBytes "TEXT/Plain; Charset=us-ascii\n") =
      some (HeaderValue.ContentType
        { c_type := strBytes "text", c_subtype := some (strBytes "plain"),
          attributes := some [(strBytes "charset", strBytes "us-ascii")] }) :=
  C2_tokens_lowercased_values_preserved decode_rfc2047_fail
    (strBytes "TEXT") (strBytes "Plain") (strBytes "Charset") (strBytes "us-ascii")
    (by decide) (by decide) (by decide) (by decide)
    (by decide) (by decide) (by decide) (by decide)
    (by decide) (by decide) (by decide) (by decide)
